import Mathlib

/-!
Verification of the defaults-file parser and type-inference engine of
saltyorg/docs-automation (Go).  The Go sources are shallowly embedded:
strings are Lean `String`s manipulated through their `List Char` data,
Go regular expressions are realised as executable matching functions
that reproduce the regexp semantics at the call sites, and the
line-oriented parser is a recursive function over the list of input
lines.  All definitions are executable; theorems settle the frozen
claims about the program.

Embedding conventions:
* Go byte-level operations are modelled at `Char` level; inputs of
  interest are ASCII, where the two coincide.
* Go `map` values are modelled as association lists (`List (key × val)`)
  with in-place update; iteration order only matters for config tables
  that the claims instantiate with `none`.
* File I/O (`os.Open`, `bufio.Scanner`) is dropped: functions take the
  list of already-read lines, exactly what the scanner hands the Go code.
-/

/-- Character class `[ \t\n\v\f\r]` used by Go `strings.TrimSpace`
(`unicode.IsSpace` restricted to ASCII; the documents are ASCII). -/
def isGoSpace (c : Char) : Bool :=
  c.toNat = 9 ∨ c.toNat = 10 ∨ c.toNat = 11 ∨ c.toNat = 12 ∨ c.toNat = 13 ∨ c.toNat = 32

/-- Character class `\s` of Go `regexp` (RE2): `[ \t\n\f\r]`. -/
def isReSpace (c : Char) : Bool :=
  c.toNat = 9 ∨ c.toNat = 10 ∨ c.toNat = 12 ∨ c.toNat = 13 ∨ c.toNat = 32

/-- Character class `[ \t]`, the cutset of `strings.TrimLeft(line, " \t")`. -/
def isIndentChar (c : Char) : Bool :=
  c.toNat = 32 ∨ c.toNat = 9

/-- Character class `[a-zA-Z_]` (start of the variable-name pattern). -/
def isIdentStart (c : Char) : Bool :=
  (65 ≤ c.toNat ∧ c.toNat ≤ 90) ∨ (97 ≤ c.toNat ∧ c.toNat ≤ 122) ∨ c.toNat = 95

/-- Character class `[a-zA-Z0-9_]` (rest of the variable-name pattern). -/
def isIdentChar (c : Char) : Bool :=
  isIdentStart c ∨ (48 ≤ c.toNat ∧ c.toNat ≤ 57)

/-- Character class `[0-9]` (`\d`). -/
def isDigitChar (c : Char) : Bool :=
  48 ≤ c.toNat ∧ c.toNat ≤ 57

/-- Drop trailing characters satisfying `p` (helper for two-sided trims). -/
def dropEndWhile (p : Char → Bool) (l : List Char) : List Char :=
  (l.reverse.dropWhile p).reverse

/-- Go `strings.TrimSpace`. -/
def trimSpace (s : String) : String :=
  String.mk (dropEndWhile isGoSpace (s.data.dropWhile isGoSpace))

/-- Go `strings.TrimLeft(s, " \t")`. -/
def trimLeftIndent (s : String) : String :=
  String.mk (s.data.dropWhile isIndentChar)

/-- Go `strings.HasPrefix`. -/
def strStartsWith (s pat : String) : Bool :=
  pat.data.isPrefixOf s.data

/-- Go `strings.HasSuffix`. -/
def strEndsWith (s pat : String) : Bool :=
  pat.data.isSuffixOf s.data

/-- Substring search on character lists (`strings.Contains`). -/
def listContainsSub (ndl : List Char) : List Char → Bool
  | [] => ndl.isPrefixOf []
  | c :: cs => ndl.isPrefixOf (c :: cs) ∨ listContainsSub ndl cs

/-- Go `strings.Contains`. -/
def strContains (s sub : String) : Bool :=
  listContainsSub sub.data s.data

/-- Go `strings.TrimPrefix` (drop `pat` if `s` starts with it, else `s`). -/
def strTrimStart (s pat : String) : String :=
  if strStartsWith s pat then String.mk (s.data.drop pat.length) else s

/-- Go `strings.TrimSuffix`. -/
def strTrimSuffix (s pat : String) : String :=
  if strEndsWith s pat then String.mk (s.data.take (s.data.length - pat.length)) else s

/-- Go `strings.ToLower` (ASCII; `Char.toLower` lowercases exactly A-Z). -/
def strToLower (s : String) : String :=
  String.mk (s.data.map Char.toLower)

/-- Split a character list at `'\n'` (Go `strings.Split(s, "\n")`). -/
def splitNlChars : List Char → List (List Char)
  | [] => [[]]
  | c :: cs =>
    if c = '\n' then [] :: splitNlChars cs
    else
      match splitNlChars cs with
      | [] => [[c]]
      | l :: ls => (c :: l) :: ls

/-- Go `strings.Split(s, "\n")`; always returns at least one piece. -/
def splitOnNewline (s : String) : List String :=
  (splitNlChars s.data).map String.mk

/-- Go `strings.Join(lines, "\n")`. -/
def joinNl : List String → String
  | [] => ""
  | [x] => x
  | x :: xs => x ++ "\n" ++ joinNl xs

/-- Go `strings.Repeat(" ", n)`. -/
def spacesRep (n : Nat) : String :=
  String.mk (List.replicate n ' ')

/-- First char is a space or a tab (Go `len(line) > 0 && (line[0] == ' ' || line[0] == '\t')`). -/
def startsWithIndent (l : String) : Bool :=
  match l.data with
  | [] => false
  | c :: _ => isIndentChar c

/-- Case-insensitive `strings.HasPrefix`, realising an `(?i)^...` regexp
(`skipDocsRe`, `skipInventoryRe`; patterns are ASCII). -/
def ciStartsWith (s pat : String) : Bool :=
  (pat.data.map Char.toLower).isPrefixOf (s.data.map Char.toLower)

/-- String equality after ASCII lowering (helper for `(?i)` alternations). -/
def ciEqList (a b : List Char) : Bool :=
  a.map Char.toLower = b.map Char.toLower

/-! Type taxonomy (`internal/types`): the named category constants. -/

/-- `types.Bool`. -/
def tyBool : String := "bool"

/-- `types.Int`. -/
def tyInt : String := "int"

/-- `types.String`. -/
def tyString : String := "string"

/-- `types.List`. -/
def tyList : String := "list"

/-- `types.Dict`. -/
def tyDict : String := "dict"

/-- `types.DictOmit`. -/
def tyDictOmit : String := "dict/omit"

/-- `types.StringTrueFalse`. -/
def tyStringTrueFalse : String := "string (true/false)"

/-- `types.StringNumber`. -/
def tyStringNumber : String := "string (number)"

/-- `types.StringHTTPHTTPS`. -/
def tyStringHTTPHTTPS : String := "string (http/https)"

/-! Type inferrer (`internal/parser`, type_inference file). -/

/-- `config.TypePattern`: one `{suffix_contains, type}` rule. -/
structure TypePattern where
  SuffixContains : String
  TypeStr : String
deriving DecidableEq, Repr

/-- `config.TypeInferenceConfig`.  The Go `Exact`/`Overrides` fields are
`map[string]string` iterated in unspecified order; they are modelled as
association lists fixing one iteration order (the claims use no config). -/
structure TypeInferenceConfig where
  Exact : List (String × String)
  Patterns : List TypePattern
  Overrides : List (String × String)
deriving DecidableEq, Repr

/-- `boolTrueRe`: `^(true|True|TRUE|yes|Yes|YES)$`. -/
def boolTrueMatch (s : String) : Bool :=
  s = "true" ∨ s = "True" ∨ s = "TRUE" ∨ s = "yes" ∨ s = "Yes" ∨ s = "YES"

/-- `boolFalseRe`: `^(false|False|FALSE|no|No|NO)$`. -/
def boolFalseMatch (s : String) : Bool :=
  s = "false" ∨ s = "False" ∨ s = "FALSE" ∨ s = "no" ∨ s = "No" ∨ s = "NO"

/-- `intRe`: `^-?\d+$`. -/
def intMatch (s : String) : Bool :=
  let ds := if s.data.head? = some '-' then s.data.drop 1 else s.data
  ¬ ds.isEmpty ∧ ds.all isDigitChar

/-- `floatRe`: `^-?\d+\.\d+$`. -/
def floatMatch (s : String) : Bool :=
  let ds := if s.data.head? = some '-' then s.data.drop 1 else s.data
  let ip := ds.takeWhile isDigitChar
  let rest := ds.dropWhile isDigitChar
  (!ip.isEmpty) &&
    match rest with
    | '.' :: fp => (!fp.isEmpty) && fp.all isDigitChar
    | _ => false

/-- `listRe`: `^\[.*\]$` (`.` does not match newline; a single-line value
matches iff it starts with `[`, ends with `]`, has length ≥ 2 and contains
no newline). -/
def listShapeMatch (s : String) : Bool :=
  2 ≤ s.data.length ∧ s.data.head? = some '[' ∧ s.data.getLast? = some ']' ∧
    ¬ s.data.contains '\n'

/-- `dictRe`: `^\{.*\}$` (same reading with braces). -/
def dictShapeMatch (s : String) : Bool :=
  2 ≤ s.data.length ∧ s.data.head? = some '\x7b' ∧ s.data.getLast? = some '\x7d' ∧
    ¬ s.data.contains '\n'

/-- `TypeInferrer.inferFromValue`: infer a category from the raw value alone. -/
def inferFromValue (value : String) : String :=
  if strContains value "\n" then
    let lines := splitOnNewline value
    let firstLine := trimSpace (lines.headI)
    let secondLine := lines.getD 1 ""
    let trimmedSecond := trimSpace secondLine
    if firstLine = "" ∧ 1 < lines.length ∧ strStartsWith trimmedSecond "-" then tyList
    else if firstLine = "" ∧ 1 < lines.length ∧ strContains trimmedSecond ":" ∧
        ¬ strStartsWith trimmedSecond "#" then tyDict
    else if strStartsWith firstLine "-" then tyList
    else inferFromValueSingle value
  else inferFromValueSingle value
where
  /-- The single-line tail of `inferFromValue` (everything after the
  multiline checks in the Go function body). -/
  inferFromValueSingle (value : String) : String :=
    let trimmedValue := trimSpace value
    if trimmedValue = "" ∨ trimmedValue = "~" ∨ trimmedValue = "null" then "null"
    else if trimmedValue = "\"\"" ∨ trimmedValue = "\x27\x27" then tyString
    else if boolTrueMatch trimmedValue ∨ boolFalseMatch trimmedValue then tyBool
    else if intMatch trimmedValue then tyInt
    else if floatMatch trimmedValue then "float"
    else if listShapeMatch trimmedValue then tyList
    else if dictShapeMatch trimmedValue then tyDict
    else if strStartsWith trimmedValue "-" ∨ strStartsWith trimmedValue "  -" then tyList
    else if strStartsWith trimmedValue "\"" ∨ strStartsWith trimmedValue "\x27" ∨
        strContains trimmedValue "\x7b\x7b" then tyString
    else tyString

/-- `TypeInferrer.inferFromNamePattern`: the built-in name-suffix fallback. -/
def inferFromNamePattern (name : String) : String :=
  let lower := strToLower name
  if strEndsWith lower "_enabled" ∨ strEndsWith lower "_proxy" ∨
      strEndsWith lower "_insecure" then "bool (true/false)"
  else if strEndsWith lower "_domain" ∨ strEndsWith lower "_subdomain" ∨
      strEndsWith lower "_url" ∨ strEndsWith lower "_path" ∨
      strEndsWith lower "_location" ∨ strEndsWith lower "_folder" ∨
      strEndsWith lower "_name" ∨ strEndsWith lower "_container" ∨
      strEndsWith lower "_image" ∨ strEndsWith lower "_tag" ∨
      strEndsWith lower "_repo" ∨ strEndsWith lower "_record" ∨
      strEndsWith lower "_zone" ∨ strEndsWith lower "_token" ∨
      strEndsWith lower "_theme" then tyString
  else if strEndsWith lower "_port" ∨ strEndsWith lower "_timeout" then tyStringNumber
  else if strEndsWith lower "_scheme" then tyStringHTTPHTTPS
  else if strEndsWith lower "_list" ∨ strEndsWith lower "_ports" ∨
      strEndsWith lower "_volumes" ∨ strEndsWith lower "_networks" ∨
      strEndsWith lower "_labels" ∨ strEndsWith lower "_devices" ∨
      strEndsWith lower "_addons" ∨ strEndsWith lower "_instances" then tyList
  else if strEndsWith lower "_envs" ∨ strEndsWith lower "_dict" ∨
      strEndsWith lower "_options" ∨ strEndsWith lower "_labels" then tyDict
  else tyString

/-- `TypeInferrer.InferType` (`cfg` is the receiver's possibly-nil config). -/
def InferType (cfg : Option TypeInferenceConfig) (name value : String) : String :=
  match (cfg.map (·.Exact)).getD [] |>.find? (fun p => strEndsWith name p.1) with
  | some p => p.2
  | none =>
  match (cfg.map (·.Overrides)).getD [] |>.find? (fun p => strEndsWith name p.1) with
  | some p => p.2
  | none =>
  let typ := inferFromValue value
  if typ ≠ "" then typ
  else
    match (cfg.map (·.Patterns)).getD [] |>.find?
        (fun p => strContains name p.SuffixContains) with
    | some p => p.TypeStr
    | none => inferFromNamePattern name

/-! Lookup-suffix classifier and cross-reference scanner
(`internal/parser`, type_inference file). -/

/-- `defaultBoolRe`: `(?i)default=(false|true)\b`; match attempt at the
head of the list (`\b` = next char not in `\w`, or end). -/
def defaultBoolAt (cs : List Char) : Bool :=
  (ciEqList (cs.take 13) "default=false".data &&
    (match cs.drop 13 with | [] => true | c :: _ => ¬ isIdentChar c)) ||
  (ciEqList (cs.take 12) "default=true".data &&
    (match cs.drop 12 with | [] => true | c :: _ => ¬ isIdentChar c))

/-- `defaultBoolRe` unanchored search over the whole line. -/
def defaultBoolSearch : List Char → Bool
  | [] => false
  | c :: cs => defaultBoolAt (c :: cs) || defaultBoolSearch cs

/-- `InferRoleVarType`: category for a `role_var` lookup suffix from the
suffix text and the full source line.  The `default=` regexps are
unanchored containment tests, rendered as `strContains` on their literal
forms (`defaultQuotedRe`, `defaultDictOmitRe`, `defaultListRe`). -/
def InferRoleVarType (suffix line : String) : String :=
  if suffix = "_depends_on_healthchecks" then tyStringTrueFalse
  else if suffix = "_depends_on_delay" then tyStringNumber
  else if suffix = "_depends_on" then tyString
  else if strContains suffix "_scheme" then tyStringHTTPHTTPS
  else if strContains suffix "_enabled" ∨ strContains suffix "_proxy" then tyBool
  else if strContains suffix "_domain" ∨ strContains suffix "_subdomain" ∨
      strContains suffix "_url" then tyString
  else if strContains suffix "_port" ∨ strContains suffix "_timeout" then tyStringNumber
  else if strContains line "| bool" then tyBool
  else if strContains line "default=\x27" ∨ strContains line "default=\"" then tyString
  else if defaultBoolSearch line.data then tyBool
  else if strContains line "default=\x7b\x7d" ∨ strContains line "default=omit" then tyDictOmit
  else if strContains line "default=[]" then tyList
  else tyString

/-- A quote character, the class `['"]` of `roleVarLookupRe`. -/
def quoteChar (c : Char) : Bool :=
  c = '\x27' ∨ c = '"'

/-- One match attempt of
`lookup\s*\(\s*['"]role_var['"]\s*,\s*['"]([^'"]+)['"]` at the head of the
list; on success returns the captured suffix and the characters after the
match. -/
def matchLookupHere (cs : List Char) : Option (String × List Char) :=
  if "lookup".data.isPrefixOf cs then
    match (cs.drop 6).dropWhile isReSpace with
    | '(' :: r2 =>
      match r2.dropWhile isReSpace with
      | q1 :: r4 =>
        if quoteChar q1 ∧ "role_var".data.isPrefixOf r4 then
          match r4.drop 8 with
          | q2 :: r5 =>
            if quoteChar q2 then
              match r5.dropWhile isReSpace with
              | ',' :: r7 =>
                match r7.dropWhile isReSpace with
                | q3 :: r9 =>
                  if quoteChar q3 then
                    let sfx := r9.takeWhile (fun c => ¬ quoteChar c)
                    match r9.dropWhile (fun c => ¬ quoteChar c) with
                    | q4 :: r11 =>
                      if quoteChar q4 ∧ ¬ sfx.isEmpty then some (String.mk sfx, r11)
                      else none
                    | [] => none
                  else none
                | [] => none
              | _ => none
            else none
          | [] => none
        else none
      | [] => none
    | _ => none
  else none

/-- Left-to-right non-overlapping scan collecting every capture of
`roleVarLookupRe` (`FindAllStringSubmatch(line, -1)`); `fuel` bounds the
recursion and is instantiated with more characters than the input has, so
the scan always runs to the end of the line. -/
def extractLookupSuffixes : Nat → List Char → List String
  | 0, _ => []
  | _, [] => []
  | fuel + 1, c :: cs =>
    match matchLookupHere (c :: cs) with
    | some (sfx, rest) => sfx :: extractLookupSuffixes fuel rest
    | none => extractLookupSuffixes fuel cs

/-- All `role_var` lookup suffixes of one line, in match order. -/
def lineLookupSuffixes (line : String) : List String :=
  extractLookupSuffixes (line.data.length + 1) line.data

/-- Association-list read of a Go `map[string]string`. -/
def mapGet (m : List (String × String)) (k : String) : Option String :=
  match m.find? (fun p => p.1 = k) with
  | some p => some p.2
  | none => none

/-- Association-list write of a Go `map[string]string` (replace or append). -/
def mapSet : List (String × String) → String → String → List (String × String)
  | [], k, v => [(k, v)]
  | p :: rest, k, v => if p.1 = k then (k, v) :: rest else p :: mapSet rest k v

/-- One occurrence step of `ScanInventoryForRoleVarLookups`: skip ignored
suffixes, classify via `InferRoleVarType`, and store the result unless the
map already holds a non-`"string"` entry for the suffix
(`if existing, exists := lookups[suffix]; !exists || existing == "string"`). -/
def scanOcc (ignoreSet : List String) (m : List (String × String))
    (occ : String × String) : List (String × String) :=
  let suffix := occ.1
  if ignoreSet.contains suffix then m
  else
    let inferredType := InferRoleVarType suffix occ.2
    match mapGet m suffix with
    | none => mapSet m suffix inferredType
    | some existing => if existing = "string" then mapSet m suffix inferredType else m

/-- Per-line step of the scanner: fold `scanOcc` over the line's matches. -/
def scanLine (ignoreSet : List String) (m : List (String × String))
    (line : String) : List (String × String) :=
  (lineLookupSuffixes line).foldl (fun acc sfx => scanOcc ignoreSet acc (sfx, line)) m

/-- `ScanInventoryForRoleVarLookups` on the inventory's lines.  The Go
function additionally opens the file and returns an empty map when it does
not exist; text acquisition is the caller's concern here, and an absent
file corresponds to an empty line list. -/
def ScanInventoryForRoleVarLookups (lines : List String)
    (ignoreSuffixes : List String) : List (String × String) :=
  lines.foldl (scanLine ignoreSuffixes) []

/-! Parsed data model (`internal/parser/types.go`). -/

/-- `parser.Variable` (the Go field `Type` is `TypeStr` here: `Type` is not
a usable field name in Lean).  `LineNumber` is a `Nat`: the Go value
`lineNum - len(valueLines)` is the 0-based index of the defining line. -/
structure Variable where
  Name : String
  RawValue : String
  TypeStr : String
  Section : String
  Subsection : String
  Comment : String
  IsMultiline : Bool
  ValueLines : List String
  LineNumber : Nat
deriving DecidableEq, Repr

/-- `parser.Section`; the `map[string][]Variable` is an association list. -/
structure Section where
  Name : String
  Variables : List Variable
  Subsections : List (String × List Variable)
  SubsectionOrder : List String
deriving DecidableEq, Repr

/-- `parser.RoleInfo`; `Sections` (a `map[string]*Section`) is an
association list updated in place. -/
structure RoleInfo where
  Name : String
  RepoType : String
  Sections : List (String × Section)
  SectionOrder : List String
  HasInstances : Bool
  InstancesVar : String
  HasDefaultVars : Bool
  SSOEnabled : Bool
  HasDNS : Bool
  HasTraefik : Bool
  HasDocker : Bool
  HasWeb : Bool
  HasThemePark : Bool
  AllVariables : List Variable
deriving DecidableEq, Repr

/-- `parser.ParserState` (the `SkipSection` field exists in the Go struct
but is never assigned by `ParseFile`). -/
structure ParserState where
  CurrentSection : String
  CurrentSubsection : String
  PendingComment : String
  GlobalComment : String
  InSubsection : Bool
  SkipSection : Bool
deriving DecidableEq, Repr

/-! Filtering / normalization utilities (`internal/parser`, filter file). -/

/-- Set-insert into the key list of a Go `map[string]bool` whose values are
only ever `true`: membership is all that matters. -/
def insertKey (l : List String) (k : String) : List String :=
  if l.contains k then l else l ++ [k]

/-- Loop body of `BuildHideBaseSet`: record the stripped base for a
`_default` and/or `_custom` suffix of one variable's name. -/
def hideStep (hideBase : List String) (v : Variable) : List String :=
  let h1 := if strEndsWith v.Name "_default"
    then insertKey hideBase (strTrimSuffix v.Name "_default") else hideBase
  if strEndsWith v.Name "_custom"
    then insertKey h1 (strTrimSuffix v.Name "_custom") else h1

/-- `BuildHideBaseSet`: base names having a `_default` or `_custom` variant. -/
def BuildHideBaseSet (vars : List Variable) : List String :=
  vars.foldl hideStep []

/-- `FilterVariables`: drop variables whose name is a hide-pair base
(`roleName` is accepted and unused, as in the Go source). -/
def FilterVariables (vars : List Variable) (roleName : String) : List Variable :=
  let hideBase := BuildHideBaseSet vars
  vars.filter (fun v => ¬ hideBase.contains v.Name)

/-- `GenerateInstanceName`: rewrite a role-level variable name to its
instance-level form. -/
def GenerateInstanceName (varName roleName instanceName : String) : String :=
  let rolePfx := roleName ++ "_role_"
  if strStartsWith varName rolePfx then
    instanceName ++ "_" ++ strTrimStart varName rolePfx
  else
    let roleSimplePfx := roleName ++ "_"
    if strStartsWith varName roleSimplePfx then
      let sfx := strTrimStart varName roleSimplePfx
      if sfx = "instances" then varName
      else instanceName ++ "_" ++ sfx
    else varName

/-- Go `strings.Replace(s, old, rep, 1)` on character lists: replace the
leftmost occurrence only (an empty `old` matches at the start). -/
def replaceFirstChars : List Char → List Char → List Char → List Char
  | [], old, rep => if old.isPrefixOf [] then rep else []
  | c :: rest, old, rep =>
    if old.isPrefixOf (c :: rest) then rep ++ (c :: rest).drop old.length
    else c :: replaceFirstChars rest old rep

/-- Go `strings.Replace(s, old, rep, 1)`. -/
def strReplaceFirst (s old rep : String) : String :=
  String.mk (replaceFirstChars s.data old.data rep.data)

/-- `AdjustMultilineIndent`: substitute the new name on line 0 and shift
every later non-blank line's leading whitespace by the (byte = ASCII char)
length difference, floored at zero; the shifted indentation is re-written
as spaces, exactly as in the Go source. -/
def AdjustMultilineIndent (lines : List String) (originalName newName : String) :
    List String :=
  if lines.length ≤ 1 then lines
  else
    let diff : Int := (newName.length : Int) - (originalName.length : Int)
    match lines with
    | [] => []
    | l0 :: rest =>
      strReplaceFirst l0 originalName newName ::
        rest.map (fun line =>
          if diff = 0 then line
          else
            let trimmed := trimLeftIndent line
            if trimmed = "" then line
            else
              let currentIndent : Int := (line.length : Int) - (trimmed.length : Int)
              let newIndent := currentIndent + diff
              let flooredIndent := if newIndent < 0 then 0 else newIndent
              spacesRep flooredIndent.toNat ++ trimmed)

/-! Line-oriented state-machine parser (`internal/parser/parser.go`). -/

/-- `sectionHeaderRe`: `^#{10,}$` (applied to trimmed lines). -/
def isHeaderRun (s : String) : Bool :=
  10 ≤ s.data.length ∧ s.data.all (· = '#')

/-- `sectionNameRe`: `^#\s*(.+?)\s*$`.  `ParseFile` applies it to
`strings.TrimSpace(nextLine)`, on which the capture is the text after the
leading `#` with its leading whitespace removed (no trailing whitespace can
remain on a trimmed line); the group requires at least one character. -/
def matchSectionName (s : String) : Option String :=
  match s.data with
  | '#' :: cs =>
    let r := cs.dropWhile isReSpace
    if r.isEmpty then none else some (String.mk r)
  | _ => none

/-- Tail `\s*-\s*LIT\s*$` of the subsection-marker regexps, checked at a
split point.  Callers pass trimmed lines, so the final `\s*` is empty and
the text after the dash (and its leading whitespace) must equal `LIT`. -/
def dashLitTail (lit : List Char) (cs : List Char) : Bool :=
  match cs.dropWhile isReSpace with
  | '-' :: cs2 => (cs2.dropWhile isReSpace) = lit
  | _ => false

/-- The lazy group `(.+?)` of the subsection-marker regexps: the shortest
non-empty name after which the dash-literal tail matches. -/
def lazyNameSplit (lit : List Char) (acc : List Char) : List Char → Option (List Char)
  | [] => none
  | c :: cs =>
    if dashLitTail lit cs then some (acc ++ [c])
    else lazyNameSplit lit (acc ++ [c]) cs

/-- Backtracking of the leading greedy `\s*` of `^#\s*(.+?)...`: try the
longest run of whitespace first, giving characters back one at a time. -/
def subsectionBacktrack (lit cs : List Char) : Nat → Option (List Char)
  | 0 => lazyNameSplit lit [] cs
  | k + 1 =>
    match lazyNameSplit lit [] (cs.drop (k + 1)) with
    | some name => some name
    | none => subsectionBacktrack lit cs k

/-- `^#\s*(.+?)\s*-\s*LIT\s*$` on a trimmed line. -/
def matchSubsectionMarker (lit : List Char) (s : String) : Option String :=
  match s.data with
  | '#' :: cs => (subsectionBacktrack lit cs (cs.takeWhile isReSpace).length).map String.mk
  | _ => none

/-- `subsectionStartRe`: `^#\s*(.+?)\s*-\s*Sub-section Start\s*$`. -/
def matchSubsectionStart (s : String) : Option String :=
  matchSubsectionMarker "Sub-section Start".data s

/-- `subsectionEndRe`: `^#\s*(.+?)\s*-\s*Sub-section End\s*$`. -/
def matchSubsectionEnd (s : String) : Option String :=
  matchSubsectionMarker "Sub-section End".data s

/-- `variableRe`: `^([a-zA-Z_][a-zA-Z0-9_]*)\s*:\s*(.*)$` applied to the
raw (untrimmed) line; returns `(name, value)`.  Both quantified character
classes are disjoint from `:` and from each other, so greedy maximal munch
is the regexp's unique behaviour. -/
def matchVariableLine (line : String) : Option (String × String) :=
  match line.data with
  | [] => none
  | c :: cs =>
    if isIdentStart c then
      let name := c :: cs.takeWhile isIdentChar
      match (cs.dropWhile isIdentChar).dropWhile isReSpace with
      | ':' :: r3 => some (String.mk name, String.mk (r3.dropWhile isReSpace))
      | _ => none
    else none

/-- `globalPrefixRe`/`noGlobalPrefixRe` applied as
`ReplaceAllString(s, "")`: remove a leading `TAG` and the whitespace run
after it (the pattern is `^`-anchored, so at most one replacement). -/
def stripTagWS (s tag : String) : String :=
  if strStartsWith s tag then String.mk ((s.data.drop tag.length).dropWhile isReSpace)
  else s

/-- `isMetaSection`: denylist of metadata section titles. -/
def isMetaSection (name : String) : Bool :=
  let lower := strToLower name
  strContains lower "title:" ∨ strContains lower "author" ∨ strContains lower "url:" ∨
    strContains lower "gnu general public license" ∨ strContains lower "copyright"

/-- `shouldSkipVariable`: exclusion rule for documented variables. -/
def shouldSkipVariable (name comment : String) : Bool :=
  strContains name "_paths_folders_list" ∨
    ciStartsWith comment "Skip docs" ∨
    ciStartsWith comment "Do not edit or override using the inventory"

/-- First non-empty line (the `nextNonEmpty` lookahead of the block-scalar
branch of `parseMultilineValue`). -/
def firstNonEmptyLine : List String → Option String
  | [] => none
  | l :: rest => if l = "" then firstNonEmptyLine rest else some l

/-- Block-scalar branch of `parseMultilineValue`: consume indented lines;
an empty line is kept if the next non-empty line is still indented (or no
non-empty line follows), and terminates the block otherwise. -/
def blockCollect : List String → List String
  | [] => []
  | l :: rest =>
    if l = "" then
      match firstNonEmptyLine rest with
      | some nl => if ¬ startsWithIndent nl then [] else l :: blockCollect rest
      | none => l :: blockCollect rest
    else if startsWithIndent l then l :: blockCollect rest
    else []

/-- Flow-collection branch of `parseMultilineValue`: consume indented
non-blank lines, stopping after a line whose trimmed text ends in `]`/`}`. -/
def flowCollect : List String → List String
  | [] => []
  | l :: rest =>
    let t := trimSpace l
    if t = "" then []
    else if startsWithIndent l then
      if strEndsWith t "]" ∨ strEndsWith t "\x7d" then [l]
      else l :: flowCollect rest
    else []

/-- `isSignificantlyIndented`: strictly more leading `[ \t]` than the base
line (Go compares byte counts; ASCII). -/
def isSignificantlyIndented (line baseLine : String) : Bool :=
  baseLine.length - (trimLeftIndent baseLine).length <
    line.length - (trimLeftIndent line).length

/-- Bare-continuation branch of `parseMultilineValue`: consume indented
lines, stopping at a comment or at a colon-bearing line that does not look
like a list item / quoted string, unless that line is indented strictly
more than the defining line. -/
def bareCollect (baseLine : String) : List String → List String
  | [] => []
  | l :: rest =>
    if startsWithIndent l then
      let t := trimSpace l
      if strContains t ":" ∧ ¬ strStartsWith t "-" ∧ ¬ strStartsWith t "\"" ∧
          ¬ strStartsWith t "\x27" then
        if isSignificantlyIndented l baseLine then l :: bareCollect baseLine rest
        else []
      else if strStartsWith t "#" then []
      else l :: bareCollect baseLine rest
    else []

/-- `parseMultilineValue`: reconstruct a potentially multi-line value.
Takes the defining line (`lines[startLine]`), its value portion, and the
lines after it; returns the joined raw value, the value lines, and the
number of continuation lines consumed (the Go function's `newLineNum`
equals `startLine + 1 +` that count).  `consumeMultilineValue` is this
function with the results discarded. -/
def parseMultilineValue (baseLine initialValue : String) (rest : List String) :
    String × List String × Nat :=
  let trimmedInitial := trimSpace initialValue
  let collected :=
    if trimmedInitial = "" ∨ trimmedInitial = "|" ∨ trimmedInitial = ">" ∨
        trimmedInitial = "|-" ∨ trimmedInitial = ">-" then blockCollect rest
    else if strEndsWith trimmedInitial "[" ∨ strEndsWith trimmedInitial "\x7b" then
      flowCollect rest
    else bareCollect baseLine rest
  let valueLines := initialValue :: collected
  (joinNl valueLines, valueLines, collected.length)

/-- Create-or-reenter a section (`ParseFile`'s section-header branch body:
map insert, order append, and the reserved-name feature flags, all only
when the section does not exist yet). -/
def openSectionRole (role : RoleInfo) (sectionName : String) : RoleInfo :=
  if (role.Sections.find? (fun p => p.1 = sectionName)).isSome then role
  else
    let sec : Section := ⟨sectionName, [], [], []⟩
    let role1 := { role with
      Sections := role.Sections ++ [(sectionName, sec)]
      SectionOrder := role.SectionOrder ++ [sectionName] }
    let lower := strToLower sectionName
    if lower = "dns" then { role1 with HasDNS := true }
    else if lower = "traefik" then { role1 with HasTraefik := true }
    else if lower = "docker" then { role1 with HasDocker := true }
    else if lower = "web" then { role1 with HasWeb := true }
    else role1

/-- In-place update of one section of the `Sections` map. -/
def updateSections (secs : List (String × Section)) (k : String)
    (f : Section → Section) : List (String × Section) :=
  secs.map (fun p => if p.1 = k then (p.1, f p.2) else p)

/-- Append a variable to a subsection's list, creating the entry (Go
`append` to a nil map slot). -/
def subAppend : List (String × List Variable) → String → Variable →
    List (String × List Variable)
  | [], k, v => [(k, [v])]
  | p :: rest, k, v =>
    if p.1 = k then (p.1, p.2 ++ [v]) :: rest else p :: subAppend rest k v

/-- Add a variable to its section or subsection (order entry on first use). -/
def sectionAddVar (sec : Section) (inSub : Bool) (subName : String)
    (v : Variable) : Section :=
  if inSub ∧ subName ≠ "" then
    let so := if (sec.Subsections.find? (fun p => p.1 = subName)).isSome
      then sec.SubsectionOrder else sec.SubsectionOrder ++ [subName]
    { sec with SubsectionOrder := so, Subsections := subAppend sec.Subsections subName v }
  else { sec with Variables := sec.Variables ++ [v] }

/-- The bookkeeping after a variable is emitted in `ParseFile`: flat list,
section placement, and the four name/value-derived feature flags. -/
def roleAddVariable (role : RoleInfo) (state : ParserState) (v : Variable)
    (fullValue : String) : RoleInfo :=
  let r1 := { role with AllVariables := role.AllVariables ++ [v] }
  let r2 :=
    if (r1.Sections.find? (fun p => p.1 = state.CurrentSection)).isSome then
      { r1 with Sections := (updateSections r1.Sections state.CurrentSection (fun sec =>
          sectionAddVar sec state.InSubsection state.CurrentSubsection v)) }
    else r1
  let r3 := if strEndsWith v.Name "_instances"
    then { r2 with
      HasInstances := true
      InstancesVar := v.Name } else r2
  let r4 := if strEndsWith v.Name "_default" ∨ strEndsWith v.Name "_custom"
    then { r3 with HasDefaultVars := true } else r3
  let r5 := if strEndsWith v.Name "_traefik_sso_middleware" ∧
      strContains fullValue "traefik_default_sso_middleware"
    then { r4 with SSOEnabled := true } else r4
  if strContains v.Name "_themepark_" then { r5 with HasThemePark := true } else r5

/-- The second-pass loop of `ParseFile` over the collected lines.  `idx` is
the 0-based index of the current line in the whole document (Go's `lineNum`
before the increment).  `fuel` only bounds the recursion so that it is
structural: every iteration consumes at least one line, so any fuel of at
least the number of remaining lines (as `ParseFile` passes) makes the loop
run exactly as Go's `for lineNum < len(lines)`. -/
def parseLoop (rn rt : String) : Nat → List String → Nat → ParserState → RoleInfo → RoleInfo
  | 0, _, _, _, role => role
  | _ + 1, [], _, _, role => role
  | fuel + 1, line :: rest, idx, state, role =>
    let t := trimSpace line
    if t = "" then parseLoop rn rt fuel rest (idx + 1) state role
    else if isHeaderRun t then
      match rest with
      | [] => role
      | nl :: rest2 =>
        match matchSectionName (trimSpace nl) with
        | some sectionName =>
          let st2 := if isMetaSection sectionName then state
            else { state with
                CurrentSection := sectionName
                CurrentSubsection := ""
                InSubsection := false
                PendingComment := ""
                GlobalComment := "" }
          let role2 := if isMetaSection sectionName then role
            else openSectionRole role sectionName
          match rest2 with
          | [] => parseLoop rn rt fuel [] (idx + 2) st2 role2
          | nl2 :: rest3 =>
            if isHeaderRun (trimSpace nl2) then parseLoop rn rt fuel rest3 (idx + 3) st2 role2
            else parseLoop rn rt fuel (nl2 :: rest3) (idx + 2) st2 role2
        | none => parseLoop rn rt fuel (nl :: rest2) (idx + 1) state role
    else
      match matchSubsectionStart t with
      | some sub => parseLoop rn rt fuel rest (idx + 1)
          { state with
            CurrentSubsection := sub
            InSubsection := true
            PendingComment := "" } role
      | none =>
      match matchSubsectionEnd t with
      | some _ => parseLoop rn rt fuel rest (idx + 1)
          { state with
            CurrentSubsection := ""
            InSubsection := false
            PendingComment := ""
            GlobalComment := "" } role
      | none =>
      if strStartsWith t "#" ∧ ¬ isHeaderRun t then
        let commentText := trimSpace (strTrimStart t "#")
        if strStartsWith commentText "[GLOBAL]" then
          let globalText := stripTagWS commentText "[GLOBAL]"
          let g := if state.GlobalComment ≠ ""
            then state.GlobalComment ++ "\n" ++ globalText else globalText
          parseLoop rn rt fuel rest (idx + 1) { state with GlobalComment := g } role
        else
          let p := if state.PendingComment ≠ ""
            then state.PendingComment ++ "\n" ++ commentText else commentText
          parseLoop rn rt fuel rest (idx + 1) { state with PendingComment := p } role
      else
        match matchVariableLine line with
        | some nv =>
          let pm := parseMultilineValue line nv.2 rest
          if shouldSkipVariable nv.1 state.PendingComment then
            parseLoop rn rt fuel (rest.drop pm.2.2) (idx + 1 + pm.2.2)
              { state with PendingComment := "" } role
          else
            let hasNoGlobal := strStartsWith state.PendingComment "[NOGLOBAL]"
            let comment :=
              if hasNoGlobal then stripTagWS state.PendingComment "[NOGLOBAL]"
              else if state.PendingComment ≠ "" ∧ state.GlobalComment ≠ "" then
                state.GlobalComment ++ "\n" ++ state.PendingComment
              else if state.PendingComment ≠ "" then state.PendingComment
              else if state.GlobalComment ≠ "" then state.GlobalComment
              else ""
            let v : Variable := {
              Name := nv.1
              RawValue := pm.1
              TypeStr := ""
              Section := state.CurrentSection
              Subsection := state.CurrentSubsection
              Comment := comment
              IsMultiline := 1 < pm.2.1.length
              ValueLines := pm.2.1
              LineNumber := idx }
            parseLoop rn rt fuel (rest.drop pm.2.2) (idx + 1 + pm.2.2)
              { state with PendingComment := "" } (roleAddVariable role state v pm.1)
        | none => parseLoop rn rt fuel rest (idx + 1) state role

/-- `Parser.ParseFile` on the document's lines (the `Parser` receiver's
two fields are the first two arguments; reading the file and splitting it
into lines is the dropped I/O layer). -/
def ParseFile (roleName repoType : String) (lines : List String) : RoleInfo :=
  parseLoop roleName repoType lines.length lines 0
    ⟨"", "", "", "", false, false⟩
    ⟨roleName, repoType, [], [], false, "", false, false, false, false, false, false,
      false, []⟩

/-- The round-trip property of claim C3 for one emitted variable: the raw
value is the newline-join of the value lines; the value lines start with
the value portion (after `name:`, colon whitespace stripped) of the
defining line, found at index `LineNumber` of the document; and the
remaining value lines are the following source lines verbatim. -/
def varRoundTrip (lines : List String) (v : Variable) : Prop :=
  v.RawValue = joinNl v.ValueLines ∧
  ∃ line w, lines[v.LineNumber]? = some line ∧
    matchVariableLine line = some (v.Name, w) ∧
    v.ValueLines.head? = some w ∧
    (lines.drop (v.LineNumber + 1)).take (v.ValueLines.length - 1) = v.ValueLines.tail

/-! General lemmas about the string helpers. -/

/-- Strings with equal character data are equal. -/
theorem stringExt {a b : String} (h : a.data = b.data) : a = b := by
  cases a; cases b; simp only at h; rw [h]

/-- A string starts with any of its own left factors. -/
theorem strStartsWith_append_self (x y : String) : strStartsWith (x ++ y) x = true := by
  simp only [strStartsWith, String.data_append, List.isPrefixOf_iff_prefix]
  exact List.prefix_append _ _

/-- `TrimPrefix` inverts appending the pattern on the left. -/
theorem strTrimStart_append (x y : String) : strTrimStart (x ++ y) x = y := by
  unfold strTrimStart
  rw [if_pos (strStartsWith_append_self x y)]
  apply stringExt
  show ((x ++ y).data.drop x.length) = y.data
  rw [String.data_append]
  exact List.drop_left _ _

/-- A common left factor cancels in `HasPrefix`. -/
theorem strStartsWith_append_cancel (x a b : String) :
    strStartsWith (x ++ a) (x ++ b) = strStartsWith a b := by
  unfold strStartsWith
  simp only [String.data_append]
  rw [Bool.eq_iff_iff]
  simp only [List.isPrefixOf_iff_prefix]
  exact List.prefix_append_right_inj x.data

/-- `HasSuffix` as an equation on the data. -/
theorem strEndsWith_iff (s pat : String) :
    strEndsWith s pat = true ↔ ∃ t, t ++ pat.data = s.data := by
  simp only [strEndsWith, List.isSuffixOf_iff_suffix]
  exact Iff.rfl

/-- `TrimSuffix` inverts appending the pattern on the right. -/
theorem strTrimSuffix_append (s pat : String) (h : strEndsWith s pat = true) :
    strTrimSuffix s pat ++ pat = s := by
  obtain ⟨t, ht⟩ := (strEndsWith_iff s pat).mp h
  unfold strTrimSuffix
  rw [if_pos h]
  apply stringExt
  rw [String.data_append]
  show s.data.take (s.data.length - pat.length) ++ pat.data = s.data
  have hlen : s.data.length - pat.length = t.length := by
    rw [← ht, List.length_append]
    show t.length + pat.data.length - pat.data.length = t.length
    omega
  rw [hlen, ← ht, List.take_left]

/-- Appending the pattern always yields a `HasSuffix` match. -/
theorem strEndsWith_append (t pat : String) : strEndsWith (t ++ pat) pat = true := by
  rw [strEndsWith_iff]
  exact ⟨t.data, (String.data_append t pat).symm⟩

/-- ASCII-lowering a string preserves a suffix that is already lowercase. -/
theorem strEndsWith_toLower (name pat : String)
    (hpat : pat.data.map Char.toLower = pat.data)
    (h : strEndsWith name pat = true) :
    strEndsWith (strToLower name) pat = true := by
  obtain ⟨t, ht⟩ := (strEndsWith_iff name pat).mp h
  rw [strEndsWith_iff]
  refine ⟨t.map Char.toLower, ?_⟩
  show t.map Char.toLower ++ pat.data = (String.mk (name.data.map Char.toLower)).data
  show t.map Char.toLower ++ pat.data = name.data.map Char.toLower
  rw [← ht, List.map_append, hpat]

/-! Claim C1. -/

/-- C1 (counterexample): `foo_enabled` ends in `_enabled` and the
name-suffix fallback would annotate it boolean, but `InferType` with no
configuration on the quoted templating value `"{{ some_expr }}"` returns
the generic string category, not a boolean one. -/
theorem c1_counterexample :
    strEndsWith "foo_enabled" "_enabled" = true ∧
    inferFromNamePattern "foo_enabled" = "bool (true/false)" ∧
    InferType none "foo_enabled" "\"\x7b\x7b some_expr \x7d\x7d\"" = tyString ∧
    tyString ≠ "bool (true/false)" ∧ tyString ≠ tyBool := by
  refine ⟨by decide, by decide, by rfl, by decide, by decide⟩

/-- C1 (amended): for every variable name ending in `_enabled`, calling
`InferType` with that name, no external configuration, and the quoted
templating value `"{{ some_expr }}"` returns the generic string category:
value-shape inference classifies a quote-initial / templating value as a
generic string and never falls through, so the name-suffix fallback —
which does map `_enabled` to the boolean annotation — is not reached. -/
theorem c1_amended (name : String) (h : strEndsWith name "_enabled" = true) :
    InferType none name "\"\x7b\x7b some_expr \x7d\x7d\"" = tyString ∧
    inferFromNamePattern name = "bool (true/false)" := by
  constructor
  · rfl
  · have hl : strEndsWith (strToLower name) "_enabled" = true :=
      strEndsWith_toLower name "_enabled" (by decide) h
    simp [inferFromNamePattern, hl]

/-- C1 (witness): the amended statement at the concrete name `foo_enabled`. -/
theorem c1_witness :
    InferType none "foo_enabled" "\"\x7b\x7b some_expr \x7d\x7d\"" = tyString ∧
    inferFromNamePattern "foo_enabled" = "bool (true/false)" :=
  c1_amended "foo_enabled" (by decide)

/-! Claim C4. -/

/-- C4 (counterexample): the mixed-case token `tRuE` is a case-insensitive
variant of `true`, yet value-shape inference classifies it as a generic
string, not boolean: the regexps accept only the lower/Title/UPPER casings. -/
theorem c4_counterexample :
    inferFromValue "tRuE" = tyString ∧ tyString ≠ tyBool := by
  exact ⟨by rfl, by decide⟩

/-- C4 (amended): a single-line value whose trimmed form is one of the
twelve literal casings accepted by `boolTrueRe`/`boolFalseRe`
(`true/True/TRUE`, `yes/Yes/YES`, `false/False/FALSE`, `no/No/NO`) is
classified boolean by value-shape inference, for any variable name (the
inference does not look at the name); other casings are not recognised. -/
theorem c4_amended (value : String)
    (hnl : strContains value "\n" = false)
    (h : boolTrueMatch (trimSpace value) = true ∨ boolFalseMatch (trimSpace value) = true) :
    inferFromValue value = tyBool := by
  have h12 : trimSpace value = "true" ∨ trimSpace value = "True" ∨
      trimSpace value = "TRUE" ∨ trimSpace value = "yes" ∨ trimSpace value = "Yes" ∨
      trimSpace value = "YES" ∨ trimSpace value = "false" ∨ trimSpace value = "False" ∨
      trimSpace value = "FALSE" ∨ trimSpace value = "no" ∨ trimSpace value = "No" ∨
      trimSpace value = "NO" := by
    rcases h with h | h
    · simp only [boolTrueMatch, decide_eq_true_eq] at h; tauto
    · simp only [boolFalseMatch, decide_eq_true_eq] at h; tauto
  unfold inferFromValue
  simp only [hnl, Bool.false_eq_true, if_false]
  rcases h12 with h | h | h | h | h | h | h | h | h | h | h | h <;>
    simp only [inferFromValue.inferFromValueSingle, h] <;> decide

/-- C4 (witness): the amended statement at the concrete value `" True "`. -/
theorem c4_witness :
    strContains " True " "\n" = false ∧ inferFromValue " True " = tyBool :=
  ⟨by decide, c4_amended " True " (by decide) (Or.inl (by decide))⟩

/-! Claim C7. -/

/-- C7 (counterexample): `_enabled_port` contains `_port` and is none of
the exact special cases, yet `InferRoleVarType` returns boolean (the
earlier `_enabled` substring pattern wins), refuting "the result is the
numeric-as-string category regardless of the line text" for every
`_port`/`_timeout` suffix. -/
theorem c7_counterexample :
    strContains "_enabled_port" "_port" = true ∧
    "_enabled_port" ≠ "_depends_on_healthchecks" ∧
    "_enabled_port" ≠ "_depends_on_delay" ∧
    "_enabled_port" ≠ "_depends_on" ∧
    InferRoleVarType "_enabled_port" "" = tyBool ∧
    tyBool ≠ tyStringNumber := by
  refine ⟨by decide, by decide, by decide, by decide, by rfl, by decide⟩

/-- C7 (amended): `InferRoleVarType` applies exact-suffix cases, then
suffix substring patterns, then line-context clues.  For a suffix that is
no exact case and contains none of the earlier substring patterns
(`_scheme`, `_enabled`, `_proxy`, `_domain`, `_subdomain`, `_url`):
if it contains `_port` or `_timeout` the result is numeric-as-string
regardless of the line text, and if it contains neither, a line carrying a
`| bool` boolean-coercion filter token yields the boolean category. -/
theorem c7_amended (suffix line : String)
    (he1 : suffix ≠ "_depends_on_healthchecks")
    (he2 : suffix ≠ "_depends_on_delay")
    (he3 : suffix ≠ "_depends_on")
    (hs : strContains suffix "_scheme" = false)
    (hen : strContains suffix "_enabled" = false)
    (hp : strContains suffix "_proxy" = false)
    (hd : strContains suffix "_domain" = false)
    (hsd : strContains suffix "_subdomain" = false)
    (hu : strContains suffix "_url" = false) :
    ((strContains suffix "_port" = true ∨ strContains suffix "_timeout" = true) →
      InferRoleVarType suffix line = tyStringNumber) ∧
    (strContains suffix "_port" = false → strContains suffix "_timeout" = false →
      strContains line "| bool" = true →
      InferRoleVarType suffix line = tyBool) := by
  unfold InferRoleVarType
  rw [if_neg he1, if_neg he2, if_neg he3]
  rw [if_neg (by simp [hs]), if_neg (by simp [hen, hp]), if_neg (by simp [hd, hsd, hu])]
  constructor
  · intro hpt
    rw [if_pos hpt]
  · intro hp1 hp2 hb
    rw [if_neg (by simp [hp1, hp2]), if_pos hb]

/-- C7 (witness): the amended statement at concrete inputs — `_foo_port`
stays numeric-as-string even on a `| bool` line, and `_foo` on a `| bool`
line is boolean. -/
theorem c7_witness :
    InferRoleVarType "_foo_port" "x | bool" = tyStringNumber ∧
    InferRoleVarType "_foo" "x | bool" = tyBool := by
  constructor
  · exact (c7_amended "_foo_port" "x | bool" (by decide) (by decide) (by decide)
      (by decide) (by decide) (by decide) (by decide) (by decide)
      (by decide)).1 (Or.inl (by decide))
  · exact (c7_amended "_foo" "x | bool" (by decide) (by decide) (by decide)
      (by decide) (by decide) (by decide) (by decide) (by decide)
      (by decide)).2 (by decide) (by decide) (by decide)

/-! Claim C5. -/

/-- C5: `GenerateInstanceName` rewrites `{role}_role_{suffix}` to
`{instance}_{suffix}` and (when the first form does not apply)
`{role}_{suffix}` to `{instance}_{suffix}`, leaves the `{role}_instances`
variable unchanged, returns any name matching neither form unchanged, and
on the concrete examples maps `plex_role_web_subdomain` to
`plex2_web_subdomain` and keeps `plex_instances`. -/
theorem c5_generateInstanceName (role inst sfx varName : String) :
    (GenerateInstanceName (role ++ "_role_" ++ sfx) role inst = inst ++ "_" ++ sfx) ∧
    (strStartsWith (role ++ "_" ++ sfx) (role ++ "_role_") = false → sfx ≠ "instances" →
      GenerateInstanceName (role ++ "_" ++ sfx) role inst = inst ++ "_" ++ sfx) ∧
    (GenerateInstanceName (role ++ "_instances") role inst = role ++ "_instances") ∧
    (strStartsWith varName (role ++ "_role_") = false →
      strStartsWith varName (role ++ "_") = false →
      GenerateInstanceName varName role inst = varName) ∧
    GenerateInstanceName "plex_role_web_subdomain" "plex" "plex2" = "plex2_web_subdomain" ∧
    GenerateInstanceName "plex_instances" "plex" "plex2" = "plex_instances" := by
  refine ⟨?_, ?_, ?_, ?_, by decide, by decide⟩
  · simp only [GenerateInstanceName]
    rw [if_pos (strStartsWith_append_self (role ++ "_role_") sfx)]
    rw [strTrimStart_append (role ++ "_role_") sfx]
  · intro h hne
    simp only [GenerateInstanceName]
    rw [if_neg (by simp [h]), if_pos (strStartsWith_append_self (role ++ "_") sfx)]
    rw [strTrimStart_append (role ++ "_") sfx, if_neg hne]
  · have e2 : role ++ "_instances" = (role ++ "_") ++ "instances" := by
      rw [String.append_assoc]
      have e1 : ("_" : String) ++ "instances" = "_instances" := by decide
      rw [e1]
    simp only [GenerateInstanceName]
    rw [if_neg (show ¬ strStartsWith (role ++ "_instances") (role ++ "_role_") = true by
      rw [strStartsWith_append_cancel role "_instances" "_role_"]; decide)]
    rw [e2, if_pos (strStartsWith_append_self (role ++ "_") "instances")]
    rw [strTrimStart_append (role ++ "_") "instances", if_pos rfl]
  · intro h1 h2
    simp only [GenerateInstanceName]
    rw [if_neg (by simp [h1]), if_neg (by simp [h2])]

/-- C5 (witness): the conditional clauses of the theorem at concrete
inputs: the `{role}_{suffix}` form on `plex`/`name`, and an unrelated
name left unchanged. -/
theorem c5_witness :
    GenerateInstanceName ("plex" ++ "_" ++ "name") "plex" "plex2" =
      "plex2" ++ "_" ++ "name" ∧
    GenerateInstanceName "other_var" "plex" "plex2" = "other_var" :=
  ⟨(c5_generateInstanceName "plex" "plex2" "name" "other_var").2.1
      (by decide) (by decide),
    (c5_generateInstanceName "plex" "plex2" "name" "other_var").2.2.2.1
      (by decide) (by decide)⟩

/-! Lemmas about leading-whitespace runs, for the re-indentation claim. -/

/-- `dropWhile` never lengthens a list. -/
theorem length_dropWhile_le (p : Char → Bool) (l : List Char) :
    (l.dropWhile p).length ≤ l.length := by
  induction l with
  | nil => simp
  | cons h t ih => by_cases hp : p h <;> simp [List.dropWhile_cons, hp] <;> omega

/-- The head surviving a `dropWhile` fails the predicate. -/
theorem dropWhile_head_not (p : Char → Bool) (l : List Char) (c : Char)
    (cs : List Char) (h : l.dropWhile p = c :: cs) : p c = false := by
  induction l with
  | nil => simp at h
  | cons a t ih =>
    rw [List.dropWhile_cons] at h
    by_cases hp : p a
    · simp [hp] at h; exact ih h
    · simp [hp] at h
      rw [← h.1]
      simpa using hp

/-- `dropWhile` is idempotent. -/
theorem dropWhile_idem (p : Char → Bool) (l : List Char) :
    (l.dropWhile p).dropWhile p = l.dropWhile p := by
  cases hd : l.dropWhile p with
  | nil => rfl
  | cons c cs =>
    rw [List.dropWhile_cons]
    simp [dropWhile_head_not p l c cs hd]

/-- Prepending spaces to an already-trimmed tail trims back to the tail. -/
theorem dropWhile_replicate_append (k : Nat) (l : List Char) :
    (List.replicate k ' ' ++ l.dropWhile isIndentChar).dropWhile isIndentChar =
      l.dropWhile isIndentChar := by
  induction k with
  | zero => simpa using dropWhile_idem isIndentChar l
  | succ n ih =>
    rw [List.replicate_succ, List.cons_append, List.dropWhile_cons]
    simpa [isIndentChar] using ih

/-! Claim C10. -/

/-- C10: on a multi-line value's line sequence, `AdjustMultilineIndent`
rewrites line 0 by substituting the new name for the old (first
occurrence), leaves blank continuation lines unchanged, and rewrites each
non-blank continuation line so that its leading-whitespace run is shifted
by the signed name-length difference, floored at zero, with the text after
the leading whitespace unchanged; concretely, `plex_role_docker_envs` →
`plex2_docker_envs` gives difference `-4`, so each continuation line's
indentation drops by 4, floored at zero. -/
theorem c10_adjustMultilineIndent (l0 : String) (rest : List String)
    (originalName newName : String) (hrest : rest ≠ []) :
    (AdjustMultilineIndent (l0 :: rest) originalName newName).length = rest.length + 1 ∧
    (AdjustMultilineIndent (l0 :: rest) originalName newName).head? =
      some (strReplaceFirst l0 originalName newName) ∧
    (∀ i line, rest[i]? = some line →
      (trimLeftIndent line = "" →
        (AdjustMultilineIndent (l0 :: rest) originalName newName)[i + 1]? = some line) ∧
      (trimLeftIndent line ≠ "" →
        ∃ nl, (AdjustMultilineIndent (l0 :: rest) originalName newName)[i + 1]? = some nl ∧
          trimLeftIndent nl = trimLeftIndent line ∧
          (nl.length : Int) - ((trimLeftIndent nl).length : Int) =
            max 0 (((line.length : Int) - ((trimLeftIndent line).length : Int)) +
              ((newName.length : Int) - (originalName.length : Int))))) ∧
    ("plex2_docker_envs".length : Int) - ("plex_role_docker_envs".length : Int) = -4 := by
  have hguard : ¬ ((l0 :: rest).length ≤ 1) := by
    cases rest with
    | nil => exact absurd rfl hrest
    | cons a t => simp
  unfold AdjustMultilineIndent
  rw [if_neg hguard]
  refine ⟨by simp, by simp, ?_, by decide⟩
  intro i line hline
  constructor
  · intro hblank
    by_cases hd0 : ((newName.length : Int) - (originalName.length : Int)) = 0
    · simp [List.getElem?_map, hline, hd0]
    · simp [List.getElem?_map, hline, hd0, hblank]
  · intro hnb
    have hle : (trimLeftIndent line).length ≤ line.length :=
      length_dropWhile_le isIndentChar line.data
    by_cases hd0 : ((newName.length : Int) - (originalName.length : Int)) = 0
    · refine ⟨line, ?_, rfl, ?_⟩
      · simp [List.getElem?_map, hline, hd0]
      · rw [hd0, add_zero, max_eq_right (by omega)]
    · set d : Int := (newName.length : Int) - (originalName.length : Int) with hd
      set ind : Int := (line.length : Int) - ((trimLeftIndent line).length : Int) with hind
      set k : Nat := (if ind + d < 0 then 0 else ind + d).toNat with hk
      refine ⟨spacesRep k ++ trimLeftIndent line, ?_, ?_, ?_⟩
      · simp [List.getElem?_map, hline, hd0, hnb, hk, hind, hd]
      · apply stringExt
        show (spacesRep k ++ trimLeftIndent line).data.dropWhile isIndentChar =
          line.data.dropWhile isIndentChar
        rw [String.data_append]
        exact dropWhile_replicate_append k line.data
      · have htr : trimLeftIndent (spacesRep k ++ trimLeftIndent line) =
            trimLeftIndent line := by
          apply stringExt
          show (spacesRep k ++ trimLeftIndent line).data.dropWhile isIndentChar =
            line.data.dropWhile isIndentChar
          rw [String.data_append]
          exact dropWhile_replicate_append k line.data
        rw [htr]
        have hlen : (spacesRep k ++ trimLeftIndent line).length =
            k + (trimLeftIndent line).length := by
          show (spacesRep k ++ trimLeftIndent line).data.length = _
          rw [String.data_append, List.length_append]
          simp [spacesRep]
        rw [hlen]
        by_cases hcase : ind + d < 0
        · rw [hk, if_pos hcase]
          rw [max_eq_left (by omega)]
          simp
        · rw [hk, if_neg hcase]
          rw [max_eq_right (by omega)]
          push_cast [Int.toNat_of_nonneg (show (0:Int) ≤ ind + d by omega)]
          omega

/-- C10 (witness): the theorem at the concrete rename of the Go test —
one continuation line with 8 leading spaces loses 4 of them. -/
theorem c10_witness :
    (AdjustMultilineIndent ["plex_role_docker_envs: x", "        | combine(y)"]
        "plex_role_docker_envs" "plex2_docker_envs").head? =
      some (strReplaceFirst "plex_role_docker_envs: x" "plex_role_docker_envs"
        "plex2_docker_envs") ∧
    (∃ nl, (AdjustMultilineIndent ["plex_role_docker_envs: x", "        | combine(y)"]
        "plex_role_docker_envs" "plex2_docker_envs")[1]? = some nl ∧
      trimLeftIndent nl = trimLeftIndent "        | combine(y)" ∧
      (nl.length : Int) - ((trimLeftIndent nl).length : Int) =
        max 0 ((("        | combine(y)".length : Int) -
          ((trimLeftIndent "        | combine(y)").length : Int)) +
          (("plex2_docker_envs".length : Int) - ("plex_role_docker_envs".length : Int)))) := by
  have h := c10_adjustMultilineIndent "plex_role_docker_envs: x" ["        | combine(y)"]
    "plex_role_docker_envs" "plex2_docker_envs" (by decide)
  exact ⟨h.2.1, (h.2.2.1 0 "        | combine(y)" rfl).2 (by decide)⟩

/-! Claim C9. -/

/-- `TrimSuffix` strips an appended pattern. -/
theorem strTrimSuffix_of_append (t pat : String) : strTrimSuffix (t ++ pat) pat = t := by
  unfold strTrimSuffix
  rw [if_pos (strEndsWith_append t pat)]
  apply stringExt
  show (t ++ pat).data.take ((t ++ pat).data.length - pat.length) = t.data
  rw [String.data_append, List.length_append]
  have he : t.data.length + pat.data.length - pat.length = t.data.length := by
    show t.data.length + pat.data.length - pat.data.length = t.data.length
    omega
  rw [he, List.take_left]

/-- Being the stripped base of a suffixed name is the same as the name
being base-plus-suffix. -/
theorem name_trim_iff (vn name pat : String) (h : strEndsWith vn pat = true) :
    (name = strTrimSuffix vn pat) ↔ vn = name ++ pat := by
  constructor
  · rintro rfl
    exact (strTrimSuffix_append vn pat h).symm
  · intro he
    rw [he, strTrimSuffix_of_append]

/-- A name that fails the suffix test is no base-plus-suffix. -/
theorem not_name_append (vn name pat : String) (h : strEndsWith vn pat = false) :
    vn ≠ name ++ pat := by
  intro he
  rw [he, strEndsWith_append] at h
  simp at h

/-- Membership after a set-insert. -/
theorem insertKey_mem (l : List String) (k x : String) :
    x ∈ insertKey l k ↔ x ∈ l ∨ x = k := by
  unfold insertKey
  by_cases h : l.contains k
  · rw [if_pos h]
    constructor
    · exact Or.inl
    · rintro (hx | rfl)
      · exact hx
      · simpa using h
  · rw [if_neg h]
    simp

/-- Membership after one `BuildHideBaseSet` step. -/
theorem hideStep_mem (m : List String) (v : Variable) (name : String) :
    name ∈ hideStep m v ↔
      name ∈ m ∨ v.Name = name ++ "_default" ∨ v.Name = name ++ "_custom" := by
  by_cases hd : strEndsWith v.Name "_default" <;>
    by_cases hc : strEndsWith v.Name "_custom" <;>
    simp only [hideStep, hd, hc, if_true, if_false, Bool.false_eq_true, if_neg,
      insertKey_mem]
  · rw [name_trim_iff _ _ _ hd, name_trim_iff _ _ _ hc]
    tauto
  · rw [name_trim_iff _ _ _ hd]
    have := not_name_append v.Name name "_custom" (by simpa using hc)
    tauto
  · rw [name_trim_iff _ _ _ hc]
    have := not_name_append v.Name name "_default" (by simpa using hd)
    tauto
  · have h1 := not_name_append v.Name name "_default" (by simpa using hd)
    have h2 := not_name_append v.Name name "_custom" (by simpa using hc)
    tauto

/-- The hide-base fold, characterised over any accumulator. -/
theorem buildHide_aux (vars : List Variable) (init : List String) (name : String) :
    name ∈ vars.foldl hideStep init ↔
      name ∈ init ∨ ∃ v ∈ vars, v.Name = name ++ "_default" ∨ v.Name = name ++ "_custom" := by
  induction vars generalizing init with
  | nil => simp
  | cons v t ih =>
    rw [List.foldl_cons, ih, hideStep_mem]
    constructor
    · rintro ((h | h | h) | ⟨u, hu, hou⟩)
      · exact Or.inl h
      · exact Or.inr ⟨v, List.mem_cons_self _ _, Or.inl h⟩
      · exact Or.inr ⟨v, List.mem_cons_self _ _, Or.inr h⟩
      · exact Or.inr ⟨u, List.mem_cons_of_mem _ hu, hou⟩
    · rintro (h | ⟨u, hu, hou⟩)
      · exact Or.inl (Or.inl h)
      · rcases List.mem_cons.mp hu with rfl | hu2
        · exact Or.inl (Or.inr hou)
        · exact Or.inr ⟨u, hu2, hou⟩

/-- C9: the hide set is exactly the set of names obtained by stripping a
`_default` or `_custom` suffix from some member's name; in a list
containing `role_docker_envs_default` and `role_docker_envs_custom`, the
base `role_docker_envs` is in the hide set and is absent from
`FilterVariables`' output; and any member whose name has no `_default` /
`_custom` extension in the list is retained (the retention of the
`_default`/`_custom` variables themselves thus needs that proviso). -/
theorem c9_hidePairs (vars : List Variable) (rn name : String) :
    (name ∈ BuildHideBaseSet vars ↔
      ∃ v ∈ vars, v.Name = name ++ "_default" ∨ v.Name = name ++ "_custom") ∧
    ((∃ v ∈ vars, v.Name = "role_docker_envs_default") →
     (∃ v ∈ vars, v.Name = "role_docker_envs_custom") →
      ("role_docker_envs" ∈ BuildHideBaseSet vars ∧
       ∀ v ∈ FilterVariables vars rn, v.Name ≠ "role_docker_envs")) ∧
    (∀ v ∈ vars,
      (¬ ∃ u ∈ vars, u.Name = v.Name ++ "_default" ∨ u.Name = v.Name ++ "_custom") →
      v ∈ FilterVariables vars rn) := by
  have hmem : ∀ nm, nm ∈ BuildHideBaseSet vars ↔
      ∃ v ∈ vars, v.Name = nm ++ "_default" ∨ v.Name = nm ++ "_custom" := by
    intro nm
    have := buildHide_aux vars [] nm
    simpa using this
  refine ⟨hmem name, ?_, ?_⟩
  · intro hdef hcus
    have hbase : "role_docker_envs" ∈ BuildHideBaseSet vars := by
      rw [hmem]
      obtain ⟨v, hv, hn⟩ := hdef
      exact ⟨v, hv, Or.inl hn⟩
    refine ⟨hbase, ?_⟩
    intro v hv hne
    rw [FilterVariables, List.mem_filter] at hv
    have hp := hv.2
    simp only [decide_eq_true_eq] at hp
    apply hp
    simpa [hne] using hbase
  · intro v hv hno
    rw [FilterVariables, List.mem_filter]
    refine ⟨hv, ?_⟩
    simp only [decide_eq_true_eq]
    intro hcon
    have : v.Name ∈ BuildHideBaseSet vars := by simpa using hcon
    rw [hmem] at this
    exact hno this

/-- C9 (counterexample): in a list also containing
`role_docker_envs_default_custom`, the variable `role_docker_envs_default`
is itself a hide-pair base and is NOT retained by `FilterVariables`, so
the unconditional retention claim fails. -/
theorem c9_counterexample :
    (∃ v ∈ ([⟨"role_docker_envs_default", "", "", "", "", "", false, [], 0⟩,
             ⟨"role_docker_envs_custom", "", "", "", "", "", false, [], 0⟩,
             ⟨"role_docker_envs_default_custom", "", "", "", "", "", false, [], 0⟩] :
        List Variable), v.Name = "role_docker_envs_default") ∧
    (∃ v ∈ ([⟨"role_docker_envs_default", "", "", "", "", "", false, [], 0⟩,
             ⟨"role_docker_envs_custom", "", "", "", "", "", false, [], 0⟩,
             ⟨"role_docker_envs_default_custom", "", "", "", "", "", false, [], 0⟩] :
        List Variable), v.Name = "role_docker_envs_custom") ∧
    ¬ (∃ v ∈ FilterVariables
          [⟨"role_docker_envs_default", "", "", "", "", "", false, [], 0⟩,
           ⟨"role_docker_envs_custom", "", "", "", "", "", false, [], 0⟩,
           ⟨"role_docker_envs_default_custom", "", "", "", "", "", false, [], 0⟩] "role",
        v.Name = "role_docker_envs_default") := by decide

/-- C9 (witness): the theorem on the concrete four-variable list of the
Go test: the base is hidden, the pair variables are retained. -/
theorem c9_witness :
    "role_docker_envs" ∈ BuildHideBaseSet
      [⟨"role_docker_envs_default", "", "", "", "", "", false, [], 0⟩,
       ⟨"role_docker_envs_custom", "", "", "", "", "", false, [], 0⟩,
       ⟨"role_docker_envs", "", "", "", "", "", false, [], 0⟩,
       ⟨"role_other_var", "", "", "", "", "", false, [], 0⟩] ∧
    (∀ v ∈ FilterVariables
        [⟨"role_docker_envs_default", "", "", "", "", "", false, [], 0⟩,
         ⟨"role_docker_envs_custom", "", "", "", "", "", false, [], 0⟩,
         ⟨"role_docker_envs", "", "", "", "", "", false, [], 0⟩,
         ⟨"role_other_var", "", "", "", "", "", false, [], 0⟩] "role",
      v.Name ≠ "role_docker_envs") ∧
    (⟨"role_docker_envs_default", "", "", "", "", "", false, [], 0⟩ : Variable) ∈
      FilterVariables
        [⟨"role_docker_envs_default", "", "", "", "", "", false, [], 0⟩,
         ⟨"role_docker_envs_custom", "", "", "", "", "", false, [], 0⟩,
         ⟨"role_docker_envs", "", "", "", "", "", false, [], 0⟩,
         ⟨"role_other_var", "", "", "", "", "", false, [], 0⟩] "role" := by
  have h := c9_hidePairs
    [⟨"role_docker_envs_default", "", "", "", "", "", false, [], 0⟩,
     ⟨"role_docker_envs_custom", "", "", "", "", "", false, [], 0⟩,
     ⟨"role_docker_envs", "", "", "", "", "", false, [], 0⟩,
     ⟨"role_other_var", "", "", "", "", "", false, [], 0⟩] "role" "role_docker_envs"
  have h2 := h.2.1 (by decide) (by decide)
  exact ⟨h2.1, h2.2, h.2.2 _ (by decide) (by decide)⟩

/-! Claim C8. -/

/-- Reading an association-list map after a write. -/
theorem mapGet_mapSet (m : List (String × String)) (k v x : String) :
    mapGet (mapSet m k v) x = if x = k then some v else mapGet m x := by
  induction m with
  | nil =>
    by_cases h : x = k
    · simp [mapSet, mapGet, h]
    · simp [mapSet, mapGet, h, Ne.symm h]
  | cons p rest ih =>
    by_cases hp : p.1 = k
    · rw [show mapSet (p :: rest) k v = (k, v) :: rest by simp [mapSet, hp]]
      by_cases h : x = k
      · simp [mapGet, h]
      · simp only [mapGet, List.find?_cons]
        rw [if_neg h]
        have e0 : (decide ((k, v).1 = x)) = false := by simp [Ne.symm h]
        have e1 : (decide (p.1 = x)) = false := by
          rw [hp]; simp [Ne.symm h]
        simp only [e0, e1]
    · rw [show mapSet (p :: rest) k v = p :: mapSet rest k v by simp [mapSet, hp]]
      by_cases hx : p.1 = x
      · have h2 : ¬ x = k := by rw [← hx]; exact fun hh => hp hh
        simp only [mapGet, List.find?_cons, hx]
        simp [h2, hx]
      · simp only [mapGet, List.find?_cons]
        have e1 : (decide (p.1 = x)) = false := by simp [hx]
        simp only [e1]
        exact ih

/-- A non-`"string"` entry survives any single scanner occurrence. -/
theorem scanOcc_preserve (ig : List String) (m : List (String × String)) (s v : String)
    (occ : String × String) (hv : mapGet m s = some v) (hne : v ≠ "string") :
    mapGet (scanOcc ig m occ) s = some v := by
  unfold scanOcc
  by_cases hig : ig.contains occ.1
  · rw [if_pos hig]; exact hv
  · rw [if_neg hig]
    cases hex : mapGet m occ.1 with
    | none =>
      simp only
      rw [mapGet_mapSet]
      by_cases hs : s = occ.1
      · rw [hs] at hv; rw [hv] at hex; cases hex
      · rw [if_neg hs]; exact hv
    | some existing =>
      simp only
      by_cases hstr : existing = "string"
      · rw [if_pos hstr, mapGet_mapSet]
        by_cases hs : s = occ.1
        · rw [hs] at hv
          rw [hv] at hex
          injection hex with hex2
          exact absurd (hex2.trans hstr) hne
        · rw [if_neg hs]; exact hv
      · rw [if_neg hstr]; exact hv

/-- A non-`"string"` entry survives a whole scanned line. -/
theorem scanLine_preserve (ig : List String) (m : List (String × String)) (s v : String)
    (line : String) (hv : mapGet m s = some v) (hne : v ≠ "string") :
    mapGet (scanLine ig m line) s = some v := by
  unfold scanLine
  generalize lineLookupSuffixes line = sfxs
  induction sfxs generalizing m with
  | nil => exact hv
  | cons a t ih =>
    rw [List.foldl_cons]
    exact ih _ (scanOcc_preserve ig m s v (a, line) hv hne)

/-- A non-`"string"` entry survives any further scanned lines. -/
theorem scanLines_preserve (ig : List String) (m : List (String × String)) (s v : String)
    (lines : List String) (hv : mapGet m s = some v) (hne : v ≠ "string") :
    mapGet (lines.foldl (scanLine ig) m) s = some v := by
  induction lines generalizing m with
  | nil => exact hv
  | cons l t ih =>
    rw [List.foldl_cons]
    exact ih _ (scanLine_preserve ig m s v l hv hne)

/-- C8: the scanner's per-suffix accumulation keeps the most specific
classification: an entry holding the generic-string category is replaced
by the classification of any later (non-ignored) occurrence of the same
suffix, and an entry holding a non-generic-string category is never
changed by subsequent occurrences — over any starting map, any occurrence
and any further scanned input. -/
theorem c8_scanAccumulation (ig : List String) (m : List (String × String)) (s v line : String)
    (lines₁ lines₂ : List String) :
    (mapGet m s = some "string" → ig.contains s = false →
      mapGet (scanOcc ig m (s, line)) s = some (InferRoleVarType s line)) ∧
    (mapGet m s = some v → v ≠ "string" →
      mapGet (lines₁.foldl (scanLine ig) m) s = some v) ∧
    (mapGet (ScanInventoryForRoleVarLookups lines₁ ig) s = some v → v ≠ "string" →
      mapGet (ScanInventoryForRoleVarLookups (lines₁ ++ lines₂) ig) s = some v) := by
  refine ⟨?_, ?_, ?_⟩
  · intro hstr hig
    unfold scanOcc
    rw [if_neg (by rw [hig]; simp)]
    simp only
    rw [hstr]
    show mapGet (if "string" = "string" then mapSet m s (InferRoleVarType s line) else m) s =
      some (InferRoleVarType s line)
    rw [if_pos rfl, mapGet_mapSet, if_pos rfl]
  · intro hv hne
    exact scanLines_preserve ig m s v lines₁ hv hne
  · intro hv hne
    unfold ScanInventoryForRoleVarLookups
    rw [List.foldl_append]
    exact scanLines_preserve ig _ s v lines₂ hv hne

/-- C8 (witness): the theorem at concrete inputs: a `"string"` entry is
replaced by the occurrence's classification, and a `| bool` line's `bool`
result for suffix `s1` survives a later generic-string occurrence. -/
theorem c8_witness :
    mapGet (scanOcc [] [("s1", "string")]
        ("s1", "x \x7b\x7b lookup(\x27role_var\x27, \x27s1\x27) \x7d\x7d | bool")) "s1" =
      some (InferRoleVarType "s1"
        "x \x7b\x7b lookup(\x27role_var\x27, \x27s1\x27) \x7d\x7d | bool") ∧
    mapGet (ScanInventoryForRoleVarLookups
        (["a \x7b\x7b lookup(\x27role_var\x27, \x27s1\x27) \x7d\x7d | bool"] ++
          ["b \x7b\x7b lookup(\x27role_var\x27, \x27s1\x27) \x7d\x7d"]) []) "s1" =
      some "bool" := by
  constructor
  · exact (c8_scanAccumulation [] [("s1", "string")] "s1" "bool"
      "x \x7b\x7b lookup(\x27role_var\x27, \x27s1\x27) \x7d\x7d | bool" [] []).1
      (by decide) (by decide)
  · exact (c8_scanAccumulation [] [] "s1" "bool" ""
      ["a \x7b\x7b lookup(\x27role_var\x27, \x27s1\x27) \x7d\x7d | bool"]
      ["b \x7b\x7b lookup(\x27role_var\x27, \x27s1\x27) \x7d\x7d"]).2.2
      (by decide) (by decide)

/-! Claim C6. -/

/-- C6: a defining line with an empty first-line value followed by
`  - item1` and `  - item2`, terminated by end of input or by a dedented
non-empty line, yields a single Variable with `IsMultiline = true` and
`ValueLines = ["", "  - item1", "  - item2"]`, whose raw value `InferType`
(no configuration) classifies as the list category. -/
theorem c6_blockScalarList :
    (ParseFile "r" "saltbox" ["myvar:", "  - item1", "  - item2"]).AllVariables =
      [⟨"myvar", "\n  - item1\n  - item2", "", "", "", "", true,
        ["", "  - item1", "  - item2"], 0⟩] ∧
    (ParseFile "r" "saltbox"
        ["myvar:", "  - item1", "  - item2", "next_var: 1"]).AllVariables.head? =
      some ⟨"myvar", "\n  - item1\n  - item2", "", "", "", "", true,
        ["", "  - item1", "  - item2"], 0⟩ ∧
    InferType none "myvar" "\n  - item1\n  - item2" = tyList := by decide

/-! Claims C2 and C3: the multi-line collectors consume a prefix of the
remaining lines verbatim. -/

/-- The block-scalar collector returns a verbatim prefix. -/
theorem blockCollect_take (ls : List String) :
    blockCollect ls ++ ls.drop (blockCollect ls).length = ls := by
  induction ls with
  | nil => rfl
  | cons l rest ih =>
    rw [blockCollect]
    by_cases hl : l = ""
    · rw [if_pos hl]
      cases hfe : firstNonEmptyLine rest with
      | some nl =>
        by_cases hin : startsWithIndent nl
        · simp [hin, ih]
        · simp [hin]
      | none => simp [ih]
    · rw [if_neg hl]
      by_cases hin : startsWithIndent l
      · rw [if_pos hin]
        simp [ih]
      · rw [if_neg (by simp [hin])]
        simp

/-- The flow-collection collector returns a verbatim prefix. -/
theorem flowCollect_take (ls : List String) :
    flowCollect ls ++ ls.drop (flowCollect ls).length = ls := by
  induction ls with
  | nil => rfl
  | cons l rest ih =>
    rw [flowCollect]
    by_cases ht : trimSpace l = ""
    · rw [if_pos ht]; simp
    · rw [if_neg ht]
      by_cases hin : startsWithIndent l
      · rw [if_pos hin]
        by_cases hend : strEndsWith (trimSpace l) "]" ∨ strEndsWith (trimSpace l) "\x7d"
        · rw [if_pos hend]; simp
        · rw [if_neg hend]
          simp [ih]
      · rw [if_neg (by simp [hin])]
        simp

/-- The bare-continuation collector returns a verbatim prefix. -/
theorem bareCollect_take (baseLine : String) (ls : List String) :
    bareCollect baseLine ls ++ ls.drop (bareCollect baseLine ls).length = ls := by
  induction ls with
  | nil => rfl
  | cons l rest ih =>
    rw [bareCollect]
    by_cases hin : startsWithIndent l
    · rw [if_pos hin]
      by_cases hcolon : strContains (trimSpace l) ":" ∧
          ¬ strStartsWith (trimSpace l) "-" ∧ ¬ strStartsWith (trimSpace l) "\"" ∧
          ¬ strStartsWith (trimSpace l) "\x27"
      · rw [if_pos hcolon]
        by_cases hsig : isSignificantlyIndented l baseLine
        · rw [if_pos hsig]
          simp [ih]
        · rw [if_neg (by simp [hsig])]
          simp
      · rw [if_neg hcolon]
        by_cases hcom : strStartsWith (trimSpace l) "#"
        · rw [if_pos hcom]; simp
        · rw [if_neg (by simp [hcom])]
          simp [ih]
    · rw [if_neg (by simp [hin])]
      simp

/-- `parseMultilineValue` yields the joined value, the value lines
(initial value followed by a verbatim prefix of the remaining lines), and
the count of consumed lines. -/
theorem parseMultilineValue_spec (baseLine initialValue : String) (rest : List String) :
    ∃ C, parseMultilineValue baseLine initialValue rest =
        (joinNl (initialValue :: C), initialValue :: C, C.length) ∧
      C ++ rest.drop C.length = rest := by
  simp only [parseMultilineValue]
  by_cases h1 : trimSpace initialValue = "" ∨ trimSpace initialValue = "|" ∨
      trimSpace initialValue = ">" ∨ trimSpace initialValue = "|-" ∨
      trimSpace initialValue = ">-"
  · rw [if_pos h1]
    exact ⟨blockCollect rest, rfl, blockCollect_take rest⟩
  · rw [if_neg h1]
    by_cases h2 : strEndsWith (trimSpace initialValue) "[" ∨
        strEndsWith (trimSpace initialValue) "\x7b"
    · rw [if_pos h2]
      exact ⟨flowCollect rest, rfl, flowCollect_take rest⟩
    · rw [if_neg h2]
      exact ⟨bareCollect baseLine rest, rfl, bareCollect_take baseLine rest⟩

/-- Opening a section does not touch the flat variable list. -/
theorem openSectionRole_allVars (role : RoleInfo) (s : String) :
    (openSectionRole role s).AllVariables = role.AllVariables := by
  simp only [openSectionRole]
  split_ifs <;> rfl

/-- Emitting a variable appends exactly it to the flat variable list. -/
theorem roleAddVariable_allVars (role : RoleInfo) (state : ParserState)
    (v : Variable) (fv : String) :
    (roleAddVariable role state v fv).AllVariables = role.AllVariables ++ [v] := by
  simp only [roleAddVariable]
  split_ifs <;> rfl

/-- Stepping the parse index by one consumed line. -/
theorem drop_cons_step {α : Type} (l : List α) (idx : Nat) (a : α) (r : List α)
    (h : l.drop idx = a :: r) : l.drop (idx + 1) = r := by
  rw [← List.drop_drop, h]
  rfl

/-- Stepping the parse index by several consumed lines. -/
theorem drop_add_eq {α : Type} (l : List α) (n k : Nat) :
    l.drop (n + k) = (l.drop n).drop k := by
  rw [← List.drop_drop]

/-- The head of a drop is the element at that index. -/
theorem getElem?_of_drop {α : Type} (l : List α) (idx : Nat) (a : α) (r : List α)
    (h : l.drop idx = a :: r) : l[idx]? = some a := by
  have := List.getElem?_drop l idx 0
  rw [h] at this
  simpa using this.symm

/-- A list takes back its own left factor. -/
theorem take_of_append {α : Type} (rest C D : List α) (h : C ++ D = rest) :
    rest.take C.length = C := by
  rw [← h, List.take_left]

/-- A line matching `variableRe` starts with an identifier character. -/
theorem matchVariableLine_head (line : String) (n w : String)
    (h : matchVariableLine line = some (n, w)) :
    ∃ c cs, line.data = c :: cs ∧ isIdentStart c = true := by
  unfold matchVariableLine at h
  cases hd : line.data with
  | nil => rw [hd] at h; cases h
  | cons c cs =>
    rw [hd] at h
    by_cases hc : isIdentStart c
    · exact ⟨c, cs, rfl, hc⟩
    · simp [hc] at h

/-- Round-trip invariant of the parse loop: every variable accumulated so
far or emitted later satisfies `varRoundTrip` for the whole document. -/
theorem c3_loop (rn rt : String) (allLines : List String) :
    ∀ fuel cur idx state role,
      allLines.drop idx = cur →
      (∀ v ∈ role.AllVariables, varRoundTrip allLines v) →
      ∀ v ∈ (parseLoop rn rt fuel cur idx state role).AllVariables,
        varRoundTrip allLines v := by
  intro fuel
  induction fuel with
  | zero =>
    intro cur idx state role hcur hrole
    simpa [parseLoop] using hrole
  | succ f ih =>
    intro cur idx state role hcur hrole
    cases cur with
    | nil => simpa [parseLoop] using hrole
    | cons line rest =>
      have hdrop1 : allLines.drop (idx + 1) = rest := drop_cons_step _ _ _ _ hcur
      simp only [parseLoop]
      by_cases h1 : trimSpace line = ""
      · rw [if_pos h1]
        exact ih rest (idx + 1) state role hdrop1 hrole
      · rw [if_neg h1]
        by_cases h2 : isHeaderRun (trimSpace line) = true
        · rw [if_pos h2]
          split
          · exact hrole
          · rename_i nl rest2
            have hdrop2 : allLines.drop (idx + 2) = rest2 :=
              drop_cons_step _ _ _ _ hdrop1
            split
            · rename_i sectionName heq
              have hrole2 : ∀ v ∈ (if isMetaSection sectionName = true then role
                  else openSectionRole role sectionName).AllVariables,
                  varRoundTrip allLines v := by
                split_ifs
                · exact hrole
                · rw [openSectionRole_allVars]
                  exact hrole
              split
              · exact ih [] (idx + 2) _ _ hdrop2 hrole2
              · rename_i nl2 rest3
                by_cases h3 : isHeaderRun (trimSpace nl2) = true
                · rw [if_pos h3]
                  exact ih rest3 (idx + 3) _ _ (drop_cons_step _ _ _ _ hdrop2) hrole2
                · rw [if_neg h3]
                  exact ih (nl2 :: rest3) (idx + 2) _ _ hdrop2 hrole2
            · exact ih (nl :: rest2) (idx + 1) state role hdrop1 hrole
        · rw [if_neg h2]
          split
          · exact ih rest (idx + 1) _ role hdrop1 hrole
          · split
            · exact ih rest (idx + 1) _ role hdrop1 hrole
            · by_cases h4 : strStartsWith (trimSpace line) "#" = true ∧
                  ¬ isHeaderRun (trimSpace line) = true
              · rw [if_pos h4]
                by_cases h5 : strStartsWith
                    (trimSpace (strTrimStart (trimSpace line) "#")) "[GLOBAL]" = true
                · rw [if_pos h5]
                  exact ih rest (idx + 1) _ role hdrop1 hrole
                · rw [if_neg h5]
                  exact ih rest (idx + 1) _ role hdrop1 hrole
              · rw [if_neg h4]
                split
                · rename_i nv heq3
                  obtain ⟨C, hpm, hC⟩ := parseMultilineValue_spec line nv.2 rest
                  rw [hpm]
                  by_cases h6 : shouldSkipVariable nv.1 state.PendingComment = true
                  · rw [if_pos h6]
                    refine ih (rest.drop C.length) (idx + 1 + C.length) _ role ?_ hrole
                    rw [drop_add_eq allLines (idx + 1) C.length, hdrop1]
                  · rw [if_neg h6]
                    refine ih (rest.drop C.length) (idx + 1 + C.length) _ _ ?_ ?_
                    · rw [drop_add_eq allLines (idx + 1) C.length, hdrop1]
                    · intro u hu
                      rw [roleAddVariable_allVars] at hu
                      rcases List.mem_append.mp hu with hu | hu
                      · exact hrole u hu
                      · rw [List.mem_singleton] at hu
                        subst hu
                        refine ⟨rfl, line, nv.2, getElem?_of_drop _ _ _ _ hcur,
                          by rw [heq3], rfl, ?_⟩
                        rw [hdrop1]
                        simp only [List.length_cons, Nat.add_sub_cancel, List.tail_cons]
                        exact take_of_append rest C _ hC
                · exact ih rest (idx + 1) state role hdrop1 hrole

/-- C3: every Variable emitted by `ParseFile` satisfies the round-trip
invariant: `RawValue` is the newline-join of `ValueLines`, `ValueLines`
starts with the value portion of the defining line (after `name:`, colon
whitespace stripped), and the later value lines are the following source
lines with their original indentation unchanged. -/
theorem c3_roundTrip (rn rt : String) (lines : List String) (v : Variable)
    (hv : v ∈ (ParseFile rn rt lines).AllVariables) : varRoundTrip lines v :=
  c3_loop rn rt lines lines.length lines 0 _ _ (by simp) (by simp) v hv

/-- C3 (witness): the round-trip invariant at a concrete one-line parse. -/
theorem c3_witness :
    varRoundTrip ["a: 1"] ⟨"a", "1", "", "", "", "", false, ["1"], 0⟩ :=
  c3_roundTrip "r" "saltbox" ["a: 1"] _ (by decide)

/-! Claim C2: a well-formed `name: value` line always takes the parser's
variable branch, and consumes no continuation lines when the following
line is itself well-formed. -/

/-- An identifier-start character is no whitespace. -/
theorem identStart_not_space (c : Char) (h : isIdentStart c = true) :
    isGoSpace c = false := by
  simp only [isIdentStart, decide_eq_true_eq] at h
  simp only [isGoSpace, decide_eq_false_iff_not]
  omega

/-- An identifier-start character is no indentation character. -/
theorem identStart_not_indent (c : Char) (h : isIdentStart c = true) :
    isIndentChar c = false := by
  simp only [isIdentStart, decide_eq_true_eq] at h
  simp only [isIndentChar, decide_eq_false_iff_not]
  omega

/-- An identifier-start character is not `#`. -/
theorem identStart_ne_hash (c : Char) (h : isIdentStart c = true) : c ≠ '#' := by
  intro he
  rw [he] at h
  exact absurd h (by decide)

/-- A string with cons data is non-empty. -/
theorem string_ne_empty_of_data {s : String} {c : Char} {cs : List Char}
    (h : s.data = c :: cs) : s ≠ "" := by
  intro he
  rw [he] at h
  simp at h

/-- Trimming keeps a non-space head character in place. -/
theorem trimSpace_data_ident (line : String) (c : Char) (cs : List Char)
    (hd : line.data = c :: cs) (hc : isGoSpace c = false) :
    ∃ cs2, (trimSpace line).data = c :: cs2 := by
  show ∃ cs2, dropEndWhile isGoSpace (line.data.dropWhile isGoSpace) = c :: cs2
  rw [hd, List.dropWhile_cons]
  simp only [hc, Bool.false_eq_true, if_false]
  unfold dropEndWhile
  rw [List.reverse_cons, List.dropWhile_append]
  by_cases he : (cs.reverse.dropWhile isGoSpace).isEmpty
  · rw [if_pos he]
    rw [List.dropWhile_cons]
    simp only [hc, Bool.false_eq_true, if_false, List.dropWhile_nil]
    exact ⟨[], rfl⟩
  · rw [if_neg he]
    rw [List.reverse_append]
    exact ⟨(cs.reverse.dropWhile isGoSpace).reverse, rfl⟩

/-- A line whose first character is not `#` is no section-delimiter run. -/
theorem headerRun_false (s : String) (c : Char) (cs : List Char)
    (h : s.data = c :: cs) (hc : c ≠ '#') : isHeaderRun s = false := by
  simp only [isHeaderRun, h, decide_eq_false_iff_not]
  rintro ⟨-, hall⟩
  rw [List.all_cons] at hall
  simp at hall
  exact hc hall.1

/-- A line whose first character is not `#` does not start with `#`. -/
theorem startsWith_hash_false (s : String) (c : Char) (cs : List Char)
    (h : s.data = c :: cs) (hc : c ≠ '#') : strStartsWith s "#" = false := by
  simp only [strStartsWith, h]
  rw [Bool.eq_false_iff]
  intro hpre
  obtain ⟨t, ht⟩ := List.isPrefixOf_iff_prefix.mp hpre
  rw [List.cons_append, List.nil_append] at ht
  rw [List.cons.injEq] at ht
  exact hc ht.1.symm

/-- The subsection-marker regexps require a leading `#`. -/
theorem subsectionMarker_none (lit : List Char) (s : String) (c : Char)
    (cs : List Char) (h : s.data = c :: cs) (hc : c ≠ '#') :
    matchSubsectionMarker lit s = none := by
  unfold matchSubsectionMarker
  rw [h]
  split
  · rename_i cs2 heq
    rw [List.cons.injEq] at heq
    exact absurd heq.1 hc
  · rfl

/-- A line whose first character is no indent character is unindented. -/
theorem startsWithIndent_false (line : String) (c : Char) (cs : List Char)
    (h : line.data = c :: cs) (hc2 : isIndentChar c = false) :
    startsWithIndent line = false := by
  unfold startsWithIndent
  rw [h]
  exact hc2

/-- A line matching `variableRe` is classified by no earlier parser
branch: non-blank, no header run, no subsection marker, no comment, and
unindented. -/
theorem identline_facts (line n w : String)
    (h : matchVariableLine line = some (n, w)) :
    trimSpace line ≠ "" ∧ isHeaderRun (trimSpace line) = false ∧
    matchSubsectionStart (trimSpace line) = none ∧
    matchSubsectionEnd (trimSpace line) = none ∧
    strStartsWith (trimSpace line) "#" = false ∧
    startsWithIndent line = false ∧ line ≠ "" ∧ trimSpace line ≠ "" := by
  obtain ⟨c, cs, hd, hc⟩ := matchVariableLine_head line n w h
  obtain ⟨cs2, htr⟩ := trimSpace_data_ident line c cs hd (identStart_not_space c hc)
  have hhash := identStart_ne_hash c hc
  refine ⟨string_ne_empty_of_data htr, headerRun_false _ c cs2 htr hhash,
    subsectionMarker_none _ _ c cs2 htr hhash,
    subsectionMarker_none _ _ c cs2 htr hhash,
    startsWith_hash_false _ c cs2 htr hhash,
    startsWithIndent_false _ c cs hd (identStart_not_indent c hc),
    string_ne_empty_of_data hd, string_ne_empty_of_data htr⟩

/-- With no pending comment, only the name's substring rule can skip. -/
theorem shouldSkip_false (n : String)
    (hc : strContains n "_paths_folders_list" = false) :
    shouldSkipVariable n "" = false := by
  simp only [shouldSkipVariable, hc, decide_eq_false_iff_not]
  rintro (h | h | h)
  · simp at h
  · exact absurd h (by decide)
  · exact absurd h (by decide)

/-- No collector consumes anything when the next line is unindented and
non-blank. -/
theorem collectors_nil (rest : List String)
    (hh : ∀ l2, rest.head? = some l2 →
      startsWithIndent l2 = false ∧ l2 ≠ "" ∧ trimSpace l2 ≠ "") :
    blockCollect rest = [] ∧ flowCollect rest = [] ∧
      ∀ b, bareCollect b rest = [] := by
  cases rest with
  | nil => exact ⟨rfl, rfl, fun b => rfl⟩
  | cons l r =>
    obtain ⟨h1, h2, h3⟩ := hh l rfl
    refine ⟨?_, ?_, ?_⟩
    · rw [blockCollect, if_neg h2, if_neg (by simp [h1])]
    · rw [flowCollect]
      rw [if_neg h3, if_neg (by simp [h1])]
    · intro b
      rw [bareCollect, if_neg (by simp [h1])]

/-- A value whose following line is unindented and non-blank stays
single-line. -/
theorem parseMultilineValue_single (baseLine init : String) (rest : List String)
    (hh : ∀ l2, rest.head? = some l2 →
      startsWithIndent l2 = false ∧ l2 ≠ "" ∧ trimSpace l2 ≠ "") :
    parseMultilineValue baseLine init rest = (init, [init], 0) := by
  obtain ⟨hb, hf, hba⟩ := collectors_nil rest hh
  simp only [parseMultilineValue]
  split_ifs <;> simp [hb, hf, hba, joinNl]

/-- Counting invariant of the parse loop on documents made solely of
well-formed unskipped `name: value` lines. -/
theorem c2_loop (rn rt : String) :
    ∀ lines fuel idx state role,
      lines.length ≤ fuel →
      state.CurrentSection = "" → state.PendingComment = "" →
      state.GlobalComment = "" →
      (∀ l2 ∈ lines, ∃ n w, matchVariableLine l2 = some (n, w) ∧
        strContains n "_paths_folders_list" = false) →
      (parseLoop rn rt fuel lines idx state role).AllVariables.length =
          role.AllVariables.length + lines.length ∧
      ∀ v ∈ (parseLoop rn rt fuel lines idx state role).AllVariables,
        v ∈ role.AllVariables ∨ (v.IsMultiline = false ∧ v.Section = "") := by
  intro lines
  induction lines with
  | nil =>
    intro fuel idx state role hf h1 h2 hg h3
    cases fuel with
    | zero => exact ⟨by simp [parseLoop], fun v hv => Or.inl (by simpa [parseLoop] using hv)⟩
    | succ f => exact ⟨by simp [parseLoop], fun v hv => Or.inl (by simpa [parseLoop] using hv)⟩
  | cons l rest ih =>
    intro fuel idx state role hf h1 h2 hg h3
    cases fuel with
    | zero => simp at hf
    | succ f =>
      obtain ⟨s1, s2, s3, s4, s5, s6⟩ := state
      have h1' : s1 = "" := h1
      have h2' : s3 = "" := h2
      have hg' : s4 = "" := hg
      subst h1' h2' hg'
      obtain ⟨n, w, hmv, hnc⟩ := h3 l (List.mem_cons_self _ _)
      obtain ⟨hne, hhr, hms, hme, hsh, hsi, hlne, htne⟩ := identline_facts l n w hmv
      have hh : ∀ l2, rest.head? = some l2 →
          startsWithIndent l2 = false ∧ l2 ≠ "" ∧ trimSpace l2 ≠ "" := by
        intro l2 hl2
        have hl2m : l2 ∈ rest := by
          cases rest with
          | nil => cases hl2
          | cons a r =>
            rw [List.head?_cons, Option.some.injEq] at hl2
            rw [← hl2]
            exact List.mem_cons_self _ _
        obtain ⟨n2, w2, hmv2, -⟩ := h3 l2 (List.mem_cons_of_mem _ hl2m)
        obtain ⟨-, -, -, -, -, f6, f7, f8⟩ := identline_facts l2 n2 w2 hmv2
        exact ⟨f6, f7, f8⟩
      simp only [parseLoop]
      rw [if_neg hne, if_neg (by simp [hhr])]
      split
      · rename_i sub heq
        simp [hms] at heq
      · split
        · rename_i x heq2
          simp [hme] at heq2
        · rw [if_neg (by simp [hsh])]
          split
          · rename_i nv heq3
            have hnv : nv = (n, w) := Option.some.inj (heq3.symm.trans hmv)
            rw [parseMultilineValue_single l nv.2 rest hh]
            have hskip : shouldSkipVariable nv.1 "" = false := by
              have hnc2 : strContains nv.1 "_paths_folders_list" = false := by
                rw [hnv]; exact hnc
              exact shouldSkip_false nv.1 hnc2
            rw [if_neg (by simp [hskip])]
            have hrest : rest.length ≤ f := by simp at hf; omega
            have h3r : ∀ l2 ∈ rest, ∃ n2 w2, matchVariableLine l2 = some (n2, w2) ∧
                strContains n2 "_paths_folders_list" = false :=
              fun l2 hl2 => h3 l2 (List.mem_cons_of_mem _ hl2)
            obtain ⟨hlen2, hmem2⟩ := ih f (idx + 1) ⟨"", s2, "", "", s5, s6⟩
              (roleAddVariable role ⟨"", s2, "", "", s5, s6⟩
                ⟨nv.1, nv.2, "", "", s2, "", false, [nv.2], idx⟩ nv.2)
              hrest rfl rfl rfl h3r
            constructor
            · have e1 : (roleAddVariable role ⟨"", s2, "", "", s5, s6⟩
                  ⟨nv.1, nv.2, "", "", s2, "", false, [nv.2], idx⟩ nv.2).AllVariables.length =
                  role.AllVariables.length + 1 := by
                rw [roleAddVariable_allVars]
                simp
              exact hlen2.trans (by rw [e1]; simp only [List.length_cons]; omega)
            · intro u hu
              rcases hmem2 u hu with hu2 | hu2
              · rw [roleAddVariable_allVars] at hu2
                rcases List.mem_append.mp hu2 with hu3 | hu3
                · exact Or.inl hu3
                · rw [List.mem_singleton] at hu3
                  subst hu3
                  exact Or.inr ⟨rfl, rfl⟩
              · exact Or.inr hu2
          · rename_i heq3
            simp [hmv] at heq3

/-- C2 (amended): for a document consisting solely of well-formed
`name: value` lines none of whose names contains `_paths_folders_list`,
`ParseFile` returns exactly one Variable per input line, each with
`IsMultiline = false` and an empty-string `Section`. -/
theorem c2_oneVarPerLine (rn rt : String) (lines : List String)
    (h : ∀ l ∈ lines, ∃ n w, matchVariableLine l = some (n, w) ∧
      strContains n "_paths_folders_list" = false) :
    (ParseFile rn rt lines).AllVariables.length = lines.length ∧
    ∀ v ∈ (ParseFile rn rt lines).AllVariables,
      v.IsMultiline = false ∧ v.Section = "" := by
  have hc := c2_loop rn rt lines lines.length 0 ⟨"", "", "", "", false, false⟩
    ⟨rn, rt, [], [], false, "", false, false, false, false, false, false, false, []⟩
    (le_refl _) rfl rfl rfl h
  refine ⟨by simpa using hc.1, ?_⟩
  intro v hv
  rcases hc.2 v hv with h2 | h2
  · simp at h2
  · exact h2

/-- C2 (counterexample): a document consisting of the single well-formed
line `app_paths_folders_list: []` yields no variable at all — the
`shouldSkipVariable` name rule drops it. -/
theorem c2_counterexample :
    matchVariableLine "app_paths_folders_list: []" =
      some ("app_paths_folders_list", "[]") ∧
    (ParseFile "r" "saltbox" ["app_paths_folders_list: []"]).AllVariables = [] :=
  ⟨by decide, by decide⟩

/-- C2 (witness): the amended statement on a concrete two-line document. -/
theorem c2_witness :
    (ParseFile "r" "saltbox" ["a: 1", "b: x"]).AllVariables.length = 2 ∧
    ∀ v ∈ (ParseFile "r" "saltbox" ["a: 1", "b: x"]).AllVariables,
      v.IsMultiline = false ∧ v.Section = "" := by
  have h := c2_oneVarPerLine "r" "saltbox" ["a: 1", "b: x"] (by
    intro l hl
    rcases List.mem_cons.mp hl with rfl | hl2
    · exact ⟨"a", "1", by decide, by decide⟩
    · rw [List.mem_singleton] at hl2
      subst hl2
      exact ⟨"b", "x", by decide, by decide⟩)
  exact ⟨h.1, h.2⟩
